import Mathlib

/-!
Verification development for the SVG asset-embedding scripts
(src/embed_assets.py, src/embed_svg.py, src/update_assets.py).

The XML document tree manipulated by `embed_assets.py` is embedded as a
tree of elements carrying a numeric identity (`eid`).  The identity plays
the role of Python object identity: `xml.etree.ElementTree` elements are
mutable objects, the script precomputes the list of `<image>` elements and
a child-to-parent map, and then mutates elements in place.  Here every
in-place mutation becomes a pure tree transformation addressed by element
identity, and freshly parsed asset trees receive fresh identities from a
counter, exactly as newly allocated Python objects are distinct from all
existing ones.

Python string operations are modelled structurally over the character
list of the string so that all definitions evaluate by kernel reduction.
-/

namespace SvgEmbed

/-- Model of Python `str.startswith`: the characters of `p` form a prefix
of the characters of `s`. -/
def strStartsWith (s p : String) : Bool := p.data.isPrefixOf s.data

/-- Model of Python `str.endswith`: the characters of `p` form a suffix
of the characters of `s`. -/
def strEndsWith (s p : String) : Bool := p.data.isSuffixOf s.data

/-- The standard base64 alphabet used by Python `base64.b64encode`. -/
def b64Alphabet : List Char :=
  "ABCDEFGHIJKLMNOPQRSTUVWXYZabcdefghijklmnopqrstuvwxyz0123456789+/".data

/-- The base64 digit for a 6-bit value. -/
def b64Char (n : Nat) : Char := b64Alphabet.getD n '='

/-- Model of Python `base64.b64encode` (RFC 4648, with `=` padding) on a
byte list, decoded back to a string as the script does with
`.decode("utf-8")`. -/
def b64encode : List Nat → String
  | b1 :: b2 :: b3 :: rest =>
    String.mk [b64Char (b1 / 4), b64Char (b1 % 4 * 16 + b2 / 16),
      b64Char (b2 % 16 * 4 + b3 / 64), b64Char (b3 % 64)] ++ b64encode rest
  | [b1, b2] =>
    String.mk [b64Char (b1 / 4), b64Char (b1 % 4 * 16 + b2 / 16), b64Char (b2 % 16 * 4), '=']
  | [b1] => String.mk [b64Char (b1 / 4), b64Char (b1 % 4 * 16), '=', '=']
  | [] => ""

/-- Model of `mimetypes.guess_type`, restricted to the image extensions
relevant to this repository; every other extension is unrecognized. -/
def guessType (p : String) : Option String :=
  if strEndsWith p ".png" then some "image/png"
  else if strEndsWith p ".gif" then some "image/gif"
  else if strEndsWith p ".svg" then some "image/svg+xml"
  else if strEndsWith p ".jpg" || strEndsWith p ".jpeg" then some "image/jpeg"
  else none

mutual
/-- An XML element as manipulated by `xml.etree.ElementTree`: a tag, an
attribute dictionary (association list, insertion ordered, unique keys),
optional text, children, and a numeric identity standing for Python
object identity. -/
inductive Elem : Type where
  | node (eid : Nat) (tag : String) (attrs : List (String × String))
      (text : Option String) (children : ElemList) : Elem
/-- A list of sibling elements. -/
inductive ElemList : Type where
  | nil : ElemList
  | cons (e : Elem) (es : ElemList) : ElemList
end

/-- Identity of an element. -/
def Elem.eid : Elem → Nat
  | .node i _ _ _ _ => i

/-- Tag of an element (fully qualified, `ElementTree` style). -/
def Elem.tag : Elem → String
  | .node _ t _ _ _ => t

/-- Attribute dictionary of an element. -/
def Elem.attrs : Elem → List (String × String)
  | .node _ _ a _ _ => a

/-- Text of an element. -/
def Elem.text : Elem → Option String
  | .node _ _ _ tx _ => tx

/-- Children of an element. -/
def Elem.children : Elem → ElemList
  | .node _ _ _ _ cs => cs

/-- Concatenation of sibling lists. -/
def ElemList.append : ElemList → ElemList → ElemList
  | .nil, l => l
  | .cons e es, l => .cons e (es.append l)

/-- Model of Python dict lookup `attrs.get(k)`. -/
def getAttr (attrs : List (String × String)) (k : String) : Option String :=
  (attrs.find? (fun p => p.1 == k)).map (fun p => p.2)

/-- Model of Python dict assignment `attrs[k] = v` (`Element.set`): an
existing key keeps its position and gets the new value, a new key is
appended at the end. -/
def setAttr (attrs : List (String × String)) (k v : String) : List (String × String) :=
  if attrs.any (fun p => p.1 == k) then
    attrs.map (fun p => if p.1 = k then (p.1, v) else p)
  else attrs ++ [(k, v)]

/-- Qualified tag of `<image>` in the SVG namespace, as `ElementTree`
renders it. -/
def svgImageTag : String := "\x7bhttp://www.w3.org/2000/svg\x7dimage"

/-- Qualified tag of `<g>` in the SVG namespace. -/
def svgGTag : String := "\x7bhttp://www.w3.org/2000/svg\x7dg"

/-- Qualified name of the `xlink:href` attribute. -/
def hrefAttr : String := "\x7bhttp://www.w3.org/1999/xlink\x7dhref"

/-- The assets-directory string used by the scripts' qualification test
`file_path.startswith("./assets/")`. -/
def assetsDirStr : String := "./assets/"

mutual
/-- All identities occurring in a tree, in preorder. -/
def elemIds : Elem → List Nat
  | .node i _ _ _ cs => i :: elemIdsL cs
/-- All identities occurring in a sibling list, in preorder. -/
def elemIdsL : ElemList → List Nat
  | .nil => []
  | .cons e es => elemIds e ++ elemIdsL es
end

mutual
/-- All elements of a tree, in preorder (model of `root.iter()`). -/
def allNodes : Elem → List Elem
  | .node i t a tx cs => .node i t a tx cs :: allNodesL cs
/-- All elements of a sibling list, in preorder. -/
def allNodesL : ElemList → List Elem
  | .nil => []
  | .cons e es => allNodes e ++ allNodesL es
end

/-- Identities of the members of a sibling list. -/
def childIds : ElemList → List Nat
  | .nil => []
  | .cons e es => e.eid :: childIds es

mutual
/-- Identities of all `<image>` descendants of an element in document
order, the root excluded: model of `root.findall(".//svg:image")`. -/
def descImages : Elem → List Nat
  | .node _ _ _ _ cs => descImagesL cs
/-- Image identities contributed by a sibling list, in document order. -/
def descImagesL : ElemList → List Nat
  | .nil => []
  | .cons e es =>
    (if e.tag = svgImageTag then [e.eid] else []) ++ descImages e ++ descImagesL es
end

mutual
/-- Child-to-parent identity pairs of a tree: model of
`{c: p for p in root.iter() for c in p}`. -/
def parentPairs : Elem → List (Nat × Nat)
  | .node i _ _ _ cs => parentPairsL i cs
/-- Child-to-parent pairs contributed by the children of element `p`. -/
def parentPairsL (p : Nat) : ElemList → List (Nat × Nat)
  | .nil => []
  | .cons e es => (e.eid, p) :: (parentPairs e ++ parentPairsL p es)
end

/-- Parent lookup in the precomputed parent map (`parent_map.get`). -/
def parentOf (d : Elem) (i : Nat) : Option Nat :=
  ((parentPairs d).find? (fun pr => pr.1 == i)).map (fun pr => pr.2)

mutual
/-- Largest identity in a tree, used to seed the fresh-identity counter. -/
def maxId : Elem → Nat
  | .node i _ _ _ cs => max i (maxIdL cs)
/-- Largest identity in a sibling list. -/
def maxIdL : ElemList → Nat
  | .nil => 0
  | .cons e es => max (maxId e) (maxIdL es)
end

mutual
/-- First element with the given identity, in preorder. With unique
identities this is the unique element of that identity, i.e. Python
object lookup. -/
def getNodeById (i : Nat) : Elem → Option Elem
  | .node j t a tx cs =>
    if j = i then some (.node j t a tx cs) else getNodeByIdL i cs
/-- First element with the given identity in a sibling list. -/
def getNodeByIdL (i : Nat) : ElemList → Option Elem
  | .nil => none
  | .cons e es =>
    match getNodeById i e with
    | some r => some r
    | none => getNodeByIdL i es
end

mutual
/-- In-place attribute update `elem.set(k, v)` on the element of identity
`i`, realised as a pure tree transformation.  The recursion visits every
node and updates those of identity `i`; with pairwise distinct identities
this is exactly the single Python point update. -/
def setAttrById (i : Nat) (k v : String) : Elem → Elem
  | .node j t a tx cs =>
    .node j t (if j = i then setAttr a k v else a) tx (setAttrByIdL i k v cs)
/-- `setAttrById` mapped over a sibling list. -/
def setAttrByIdL (i : Nat) (k v : String) : ElemList → ElemList
  | .nil => .nil
  | .cons e es => .cons (setAttrById i k v e) (setAttrByIdL i k v es)
end

/-- Drop the first child of identity `c` from a sibling list: model of
`parent.remove(child)`, which removes the first matching child. -/
def removeFirstChild (c : Nat) : ElemList → ElemList
  | .nil => .nil
  | .cons e es => if e.eid = c then es else .cons e (removeFirstChild c es)

mutual
/-- In-place removal `parent.remove(child)`: drop the first child of
identity `c` from the element of identity `p`.  The recursion visits every
node; with pairwise distinct identities it acts on the single `p`
element, exactly as the Python point update. -/
def removeChildById (p c : Nat) : Elem → Elem
  | .node j t a tx cs =>
    .node j t a tx
      (if j = p then removeFirstChild c (removeChildByIdL p c cs)
       else removeChildByIdL p c cs)
/-- `removeChildById` mapped over a sibling list. -/
def removeChildByIdL (p c : Nat) : ElemList → ElemList
  | .nil => .nil
  | .cons e es => .cons (removeChildById p c e) (removeChildByIdL p c es)
end

mutual
/-- In-place append `parent.append(newChild)` on the element of identity
`p`.  The recursion visits every node; with pairwise distinct identities
it acts on the single `p` element, exactly as the Python point update. -/
def appendChildById (p : Nat) (nc : Elem) : Elem → Elem
  | .node j t a tx cs =>
    .node j t a tx
      (if j = p then (appendChildByIdL p nc cs).append (.cons nc .nil)
       else appendChildByIdL p nc cs)
/-- `appendChildById` mapped over a sibling list. -/
def appendChildByIdL (p : Nat) (nc : Elem) : ElemList → ElemList
  | .nil => .nil
  | .cons e es => .cons (appendChildById p nc e) (appendChildByIdL p nc es)
end

/-- Model of `tag.split("}", 1)[1]`: everything after the first closing
brace. -/
def dropThroughBrace : List Char → List Char
  | [] => []
  | c :: cs => if c = '\x7d' then cs else dropThroughBrace cs

/-- Namespace stripping of one tag: `if "}" in tag: tag = tag.split("}", 1)[1]`. -/
def stripNSTag (t : String) : String :=
  if t.data.contains '\x7d' then String.mk (dropThroughBrace t.data) else t

mutual
/-- Namespace stripping over a whole asset tree: model of the
`for elem in asset_root.iter()` loop in `main`. -/
def stripNS : Elem → Elem
  | .node i t a tx cs => .node i (stripNSTag t) a tx (stripNSL cs)
/-- `stripNS` mapped over a sibling list. -/
def stripNSL : ElemList → ElemList
  | .nil => .nil
  | .cons e es => .cons (stripNS e) (stripNSL es)
end

mutual
/-- An XML element as parsed from disk, before it is given object
identities. -/
inductive RawElem : Type where
  | node (tag : String) (attrs : List (String × String))
      (text : Option String) (children : RawElemList) : RawElem
/-- A list of sibling raw elements. -/
inductive RawElemList : Type where
  | nil : RawElemList
  | cons (e : RawElem) (es : RawElemList) : RawElemList
end

mutual
/-- Give fresh identities (in preorder, starting at `k`) to a freshly
parsed tree, returning the tree and the next unused identity.  This
models the fact that every `ET.parse` call allocates new Python objects,
distinct from all existing ones. -/
def assignIds (k : Nat) : RawElem → Elem × Nat
  | .node t a tx cs =>
    let r := assignIdsL (k + 1) cs
    (.node k t a tx r.1, r.2)
/-- `assignIds` over a sibling list, threading the counter. -/
def assignIdsL (k : Nat) : RawElemList → ElemList × Nat
  | .nil => (.nil, k)
  | .cons e es =>
    let r := assignIds k e
    let r2 := assignIdsL r.2 es
    (.cons r.1 r2.1, r2.2)
end

/-- Outcome of `ET.parse` on a path: the two caught exceptions
(`FileNotFoundError`, `ET.ParseError`) or a parsed tree. -/
inductive ParseOutcome : Type where
  | notFound : ParseOutcome
  | parseError : ParseOutcome
  | ok (root : RawElem) : ParseOutcome

/-- The file system and XML parser as seen by `embed_assets.py`:
`readBytes` models `open(path, "rb").read()` (`none` is
`FileNotFoundError`), `parseXml` models `ET.parse(path)`. -/
structure Env : Type where
  readBytes : String → Option (List Nat)
  parseXml : String → ParseOutcome

/-- Model of `create_data_uri` (src/embed_assets.py, lines 6-24):
the returned data URI (`none` when the function returns `None`) together
with the warning lines it prints. -/
def create_data_uri (env : Env) (file_path : String) : Option String × List String :=
  match guessType file_path with
  | none =>
    (none, ["Warning: Could not determine MIME type for " ++ file_path ++ ". Skipping."])
  | some mime_type =>
    match env.readBytes file_path with
    | none =>
      (none, ["Warning: Asset file not found at '" ++ file_path ++ "'. Skipping."])
    | some file_content =>
      (some ("data:" ++ mime_type ++ ";base64," ++ b64encode file_content), [])

/-- Set an attribute on the root of a standalone tree (`asset_root.set`). -/
def setRootAttr (e : Elem) (k v : String) : Elem :=
  match e with
  | .node i t a tx cs => .node i t (setAttr a k v) tx cs

/-- One iteration of the `for image_element in images_to_process` loop of
`main` (src/embed_assets.py, lines 58-121), acting on the document `d`
with fresh-identity counter `k`; returns the new state and the lines
printed by this iteration.  `pm` is the precomputed parent map. -/
def processImageCore (env : Env) (pm : Nat → Option Nat) (d : Elem) (k : Nat) (imgId : Nat) :
    (Elem × Nat) × List String :=
  match getNodeById imgId d with
  | none => ((d, k), [])
  | some img =>
    match getAttr img.attrs hrefAttr with
    | none => ((d, k), [])
    | some file_path =>
      if strStartsWith file_path assetsDirStr = false then ((d, k), [])
      else if strEndsWith file_path ".png" || strEndsWith file_path ".gif" then
        match create_data_uri env file_path with
        | (some data_uri, l) =>
          ((setAttrById imgId hrefAttr data_uri d, k),
            ("Processing: " ++ file_path) :: l ++ ["  -> Embedded as Base64 Data URI."])
        | (none, l) => ((d, k), ("Processing: " ++ file_path) :: l)
      else if strEndsWith file_path ".svg" then
        match pm imgId with
        | none =>
          ((d, k), ["Processing: " ++ file_path,
            "  -> Warning: SVG asset '" ++ file_path ++ "' is not inside a <g> tag. Skipping."])
        | some pid =>
          match getNodeById pid d with
          | none => ((d, k), ["Processing: " ++ file_path])
          | some parent_g =>
            if parent_g.tag ≠ svgGTag then
              ((d, k), ["Processing: " ++ file_path,
                "  -> Warning: SVG asset '" ++ file_path ++ "' is not inside a <g> tag. Skipping."])
            else
              match env.parseXml file_path with
              | .notFound =>
                ((d, k), ["Processing: " ++ file_path,
                  "  -> Warning: Asset file not found at '" ++ file_path ++ "'. Skipping."])
              | .parseError =>
                ((d, k), ["Processing: " ++ file_path,
                  "  -> Error parsing asset SVG '" ++ file_path ++ "'. Skipping."])
              | .ok raw =>
                let ar := assignIds k raw
                let asset_root := stripNS ar.1
                let x := (getAttr img.attrs "x").getD "0"
                let y := (getAttr img.attrs "y").getD "0"
                let width := getAttr img.attrs "width"
                let height := getAttr img.attrs "height"
                let d1 := setAttrById pid "transform"
                  ("translate(" ++ x ++ ", " ++ y ++ ")") d
                let asset_root1 := match width with
                  | some w => if w = "" then asset_root else setRootAttr asset_root "width" w
                  | none => asset_root
                let asset_root2 := match height with
                  | some h => if h = "" then asset_root1 else setRootAttr asset_root1 "height" h
                  | none => asset_root1
                let d2 := removeChildById pid imgId d1
                let d3 := appendChildById pid asset_root2 d2
                ((d3, ar.2),
                  ["Processing: " ++ file_path,
                   "  -> Inlined content with transform: translate(" ++ x ++ ", " ++ y ++ ")."])
      else ((d, k), ["Processing: " ++ file_path])

/-- The document-and-counter effect of one loop iteration. -/
def processImage (env : Env) (pm : Nat → Option Nat) (s : Elem × Nat) (imgId : Nat) :
    Elem × Nat :=
  (processImageCore env pm s.1 s.2 imgId).1

/-- The whole image loop of `main`, folded over a given processing order. -/
def embedLoop (env : Env) (pm : Nat → Option Nat) (s : Elem × Nat) (imgs : List Nat) :
    Elem × Nat :=
  imgs.foldl (processImage env pm) s

/-- The asset-embedding transform of `main` (src/embed_assets.py): find
the images, build the parent map, process each image in document order. -/
def runEmbed (env : Env) (root : Elem) : Elem :=
  (embedLoop env (parentOf root) (root, maxId root + 1) (descImages root)).1

/-- Path of the source document in `main`. -/
def main_svg_path : String := "new_readme.svg"

/-- Whole-run model of `main`: parse the source document (fatal error
when missing or unparsable: no output is written), otherwise run the
transform and write the result exactly once.  The written document is
`some` output. -/
def mainRun (env : Env) : Option Elem :=
  match env.parseXml main_svg_path with
  | .notFound => none
  | .parseError => none
  | .ok rawRoot => some (runEmbed env (assignIds 0 rawRoot).1)

/-- Result of one HTTP GET in `update_assets.py`: a body, a network
error (`requests.exceptions.RequestException` from `get`), or a bad
status (`raise_for_status`). -/
inductive FetchResult : Type where
  | ok (body : List Nat) : FetchResult
  | netError : FetchResult
  | badStatus : FetchResult

/-- The network and writable file system as seen by `update_assets.py`:
`fetch` models `requests.get` plus `raise_for_status`, and `writeOk`
tells whether writing the response body to a path succeeds (a failure is
the caught `IOError`). -/
structure World : Type where
  fetch : String → FetchResult
  writeOk : String → Bool

/-- Model of `fetch_and_save` (src/update_assets.py, lines 14-41): `true`
exactly when the fetch and the write both succeed; every failure is
caught and turns into `false`. -/
def fetch_and_save (w : World) (url : String) (file_path : String) : Bool :=
  match w.fetch url with
  | .netError => false
  | .badStatus => false
  | .ok _ => w.writeOk file_path

/-- The fetch loop of `update_assets.main` (src/update_assets.py, lines
72-84) over the discovered `(url, local path)` pairs: it visits every
pair in order, strips the URL, and counts the successful fetches; the
returned list records the URL of every attempted fetch in order. -/
def refresherLoop (w : World) (ms : List (String × String)) : Nat × List String :=
  ms.foldl
    (fun s m =>
      (if fetch_and_save w m.1.trim m.2 then s.1 + 1 else s.1, s.2 ++ [m.1.trim]))
    (0, [])

/-- The final report of `update_assets.main`: successful fetches out of
total discovered pairs. -/
def refresherReport (w : World) (ms : List (String × String)) : Nat × Nat :=
  ((refresherLoop w ms).1, ms.length)

end SvgEmbed

namespace SvgEmbed

/-- The locally observable data of one element: its tag, attributes,
text, and the identities of its immediate children.  Two elements with
the same view are indistinguishable except through their descendants. -/
structure NodeView : Type where
  tag : String
  attrs : List (String × String)
  text : Option String
  childIds : List Nat
deriving DecidableEq

/-- View of an element. -/
def Elem.view : Elem → NodeView
  | .node _ t a tx cs => ⟨t, a, tx, childIds cs⟩

/-- View of the element of identity `i` in a document. -/
def viewAt (i : Nat) (d : Elem) : Option NodeView :=
  (getNodeById i d).map Elem.view

/-- A well-formed document: element identities are pairwise distinct, as
Python object identities are. -/
def IdsNodup (d : Elem) : Prop := (elemIds d).Nodup

mutual
/-- Decidable equality of elements. -/
def elemDecEq : (a b : Elem) → Decidable (a = b)
  | .node i1 t1 a1 tx1 c1, .node i2 t2 a2 tx2 c2 =>
    match decEq i1 i2, decEq t1 t2, decEq a1 a2, decEq tx1 tx2, elemListDecEq c1 c2 with
    | isTrue h1, isTrue h2, isTrue h3, isTrue h4, isTrue h5 =>
      isTrue (by rw [h1, h2, h3, h4, h5])
    | isFalse h1, _, _, _, _ => isFalse (fun h => by cases h; exact h1 rfl)
    | _, isFalse h2, _, _, _ => isFalse (fun h => by cases h; exact h2 rfl)
    | _, _, isFalse h3, _, _ => isFalse (fun h => by cases h; exact h3 rfl)
    | _, _, _, isFalse h4, _ => isFalse (fun h => by cases h; exact h4 rfl)
    | _, _, _, _, isFalse h5 => isFalse (fun h => by cases h; exact h5 rfl)
/-- Decidable equality of sibling lists. -/
def elemListDecEq : (a b : ElemList) → Decidable (a = b)
  | .nil, .nil => isTrue rfl
  | .nil, .cons _ _ => isFalse (fun h => ElemList.noConfusion h)
  | .cons _ _, .nil => isFalse (fun h => ElemList.noConfusion h)
  | .cons e es, .cons f fs =>
    match elemDecEq e f, elemListDecEq es fs with
    | isTrue h1, isTrue h2 => isTrue (by rw [h1, h2])
    | isFalse h1, _ => isFalse (fun h => by cases h; exact h1 rfl)
    | _, isFalse h2 => isFalse (fun h => by cases h; exact h2 rfl)
end

instance : DecidableEq Elem := elemDecEq

instance : DecidableEq ElemList := elemListDecEq

/-- Membership of `e` in the subtree rooted at the element of identity
`j` (false when no such element exists). -/
def inSubtreeOf (d : Elem) (j e : Nat) : Bool :=
  match getNodeById j d with
  | some n => (elemIds n).contains e
  | none => false

end SvgEmbed


namespace SvgEmbed

/-- The reference attribute of an element, empty when absent. -/
def hrefOf (n : Elem) : String := (getAttr n.attrs hrefAttr).getD ""

/-- Whether an element carries a reference that passes the scripts'
assets-directory qualification test `startswith("./assets/")`. -/
def hrefQualifies (n : Elem) : Bool :=
  match getAttr n.attrs hrefAttr with
  | some fp => strStartsWith fp assetsDirStr
  | none => false

/-- Whether an element is an image whose qualifying reference routes to
the vector (`.svg`) branch of the loop. -/
def isQualVector (n : Elem) : Bool :=
  n.tag == svgImageTag && hrefQualifies n
    && !(strEndsWith (hrefOf n) ".png") && !(strEndsWith (hrefOf n) ".gif")
    && strEndsWith (hrefOf n) ".svg"

/-- Identities of the vector-qualifying image elements of a document. -/
def qualVectorIds (d : Elem) : List Nat :=
  ((allNodes d).filter isQualVector).map Elem.eid

/-- Identities of the parents of vector-qualifying image elements. -/
def qvParents (d : Elem) : List Nat :=
  (qualVectorIds d).filterMap (parentOf d)

/-- A mapped list without duplicates is injectively mapped. -/
theorem nodup_map_inj {α β : Type} {f : α → β} {l : List α} (h : (l.map f).Nodup) :
    ∀ a ∈ l, ∀ b ∈ l, f a = f b → a = b := by
  induction l with
  | nil => intro a ha; exact absurd ha (List.not_mem_nil a)
  | cons x xs ih =>
    rw [List.map_cons, List.nodup_cons] at h
    intro a ha b hb hfab
    rcases List.mem_cons.mp ha with rfl | ha2
    · rcases List.mem_cons.mp hb with rfl | hb2
      · rfl
      · exact absurd (hfab ▸ List.mem_map_of_mem f hb2) h.1
    · rcases List.mem_cons.mp hb with rfl | hb2
      · exact absurd (hfab ▸ List.mem_map_of_mem f ha2) h.1
      · exact ih h.2 a ha2 b hb2 hfab

/-- A fold whose step fixes the accumulator on every list member is the
identity. -/
theorem foldl_fixed {α β : Type} (f : α → β → α) :
    ∀ (l : List β) (s : α), (∀ b ∈ l, f s b = s) → l.foldl f s = s := by
  intro l
  induction l with
  | nil => intro s _; rfl
  | cons x xs ih =>
    intro s h
    rw [List.foldl_cons, h x (List.mem_cons_self x xs)]
    exact ih s (fun b hb => h b (List.mem_cons_of_mem x hb))

/-- Auxiliary: looking up `k` after the in-place update branch of
`setAttr`. -/
theorem getAttr_map_update_self (k v : String) :
    ∀ a : List (String × String), a.any (fun p => p.1 == k) = true →
      getAttr (a.map (fun p => if p.1 = k then (p.1, v) else p)) k = some v := by
  intro a
  induction a with
  | nil => intro h; simp at h
  | cons hd tl ih =>
    intro h
    by_cases hhd : hd.1 = k
    · simp only [List.map_cons, if_pos hhd, getAttr]
      rw [List.find?_cons_of_pos _ (by simp [hhd])]
      simp
    · simp only [List.map_cons, if_neg hhd, getAttr]
      rw [List.find?_cons_of_neg _ (by simp [hhd])]
      have h2 : tl.any (fun p => p.1 == k) = true := by
        simp only [List.any_cons] at h
        rcases Bool.or_eq_true_iff.mp h with h3 | h3
        · exact absurd (by simpa using h3) hhd
        · exact h3
      simpa [getAttr] using ih h2

/-- Auxiliary: looking up `k` after the appending branch of `setAttr`. -/
theorem getAttr_append_new_self (k v : String) :
    ∀ a : List (String × String), a.any (fun p => p.1 == k) = false →
      getAttr (a ++ [(k, v)]) k = some v := by
  intro a
  induction a with
  | nil =>
    intro _
    simp only [List.nil_append, getAttr]
    rw [List.find?_cons_of_pos _ (by simp)]
    simp
  | cons hd tl ih =>
    intro h
    simp only [List.any_cons, Bool.or_eq_false_iff] at h
    have hhd : (hd.1 == k) = false := h.1
    simp only [List.cons_append, getAttr]
    rw [List.find?_cons_of_neg _ (by simp [hhd])]
    simpa [getAttr] using ih h.2

/-- Looking up the key just assigned yields the assigned value. -/
theorem getAttr_setAttr_self (a : List (String × String)) (k v : String) :
    getAttr (setAttr a k v) k = some v := by
  rw [setAttr]
  by_cases hany : a.any (fun p => p.1 == k) = true
  · rw [if_pos hany]; exact getAttr_map_update_self k v a hany
  · rw [if_neg hany]
    exact getAttr_append_new_self k v a (Bool.not_eq_true _ ▸ hany)

/-- Assigning one key leaves the lookup of any other key unchanged. -/
theorem getAttr_setAttr_ne (a : List (String × String)) (k v k2 : String) (hk : k2 ≠ k) :
    getAttr (setAttr a k v) k2 = getAttr a k2 := by
  rw [setAttr]
  by_cases hany : a.any (fun p => p.1 == k) = true
  · rw [if_pos hany]
    clear hany
    induction a with
    | nil => rfl
    | cons hd tl ih =>
      by_cases hhd : hd.1 = k
      · have hne2 : (hd.1 == k2) = false := by simp [hhd]; exact fun h => hk h.symm
        simp only [List.map_cons, if_pos hhd, getAttr]
        rw [List.find?_cons_of_neg _ (by simp [hhd]; exact fun h => hk h.symm),
          List.find?_cons_of_neg _ (by simpa using hne2)]
        simpa [getAttr] using ih
      · simp only [List.map_cons, if_neg hhd, getAttr]
        by_cases h2 : hd.1 = k2
        · rw [List.find?_cons_of_pos _ (by simp [h2]), List.find?_cons_of_pos _ (by simp [h2])]
        · rw [List.find?_cons_of_neg _ (by simp [h2]), List.find?_cons_of_neg _ (by simp [h2])]
          simpa [getAttr] using ih
  · rw [if_neg hany]
    clear hany
    induction a with
    | nil =>
      simp only [List.nil_append, getAttr]
      rw [List.find?_cons_of_neg _ (by simp; exact fun h => hk h.symm)]
    | cons hd tl ih =>
      simp only [List.cons_append, getAttr]
      by_cases h2 : hd.1 = k2
      · rw [List.find?_cons_of_pos _ (by simp [h2]), List.find?_cons_of_pos _ (by simp [h2])]
      · rw [List.find?_cons_of_neg _ (by simp [h2]), List.find?_cons_of_neg _ (by simp [h2])]
        simpa [getAttr] using ih

end SvgEmbed

namespace SvgEmbed

/-- Attribute update preserves the identity of the root. -/
theorem eid_setAttrById (i : Nat) (k v : String) (e : Elem) :
    (setAttrById i k v e).eid = e.eid := by
  cases e; simp [setAttrById, Elem.eid]

/-- Child removal preserves the identity of the root. -/
theorem eid_removeChildById (p c : Nat) (e : Elem) :
    (removeChildById p c e).eid = e.eid := by
  cases e; simp [removeChildById, Elem.eid]

/-- Child appending preserves the identity of the root. -/
theorem eid_appendChildById (p : Nat) (nc : Elem) (e : Elem) :
    (appendChildById p nc e).eid = e.eid := by
  cases e; simp [appendChildById, Elem.eid]

/-- Namespace stripping preserves the identity of the root. -/
theorem eid_stripNS (e : Elem) : (stripNS e).eid = e.eid := by
  cases e; simp [stripNS, Elem.eid]

/-- Attribute update preserves the identities of a sibling list. -/
theorem childIds_setAttrByIdL (i : Nat) (k v : String) :
    ∀ l : ElemList, childIds (setAttrByIdL i k v l) = childIds l
  | .nil => rfl
  | .cons e es => by
    simp [setAttrByIdL, childIds, eid_setAttrById, childIds_setAttrByIdL i k v es]

/-- Child removal preserves the identities of a sibling list. -/
theorem childIds_removeChildByIdL (p c : Nat) :
    ∀ l : ElemList, childIds (removeChildByIdL p c l) = childIds l
  | .nil => rfl
  | .cons e es => by
    simp [removeChildByIdL, childIds, eid_removeChildById, childIds_removeChildByIdL p c es]

/-- Child appending preserves the identities of a sibling list. -/
theorem childIds_appendChildByIdL (p : Nat) (nc : Elem) :
    ∀ l : ElemList, childIds (appendChildByIdL p nc l) = childIds l
  | .nil => rfl
  | .cons e es => by
    simp [appendChildByIdL, childIds, eid_appendChildById, childIds_appendChildByIdL p nc es]

/-- Namespace stripping preserves the identities of a sibling list. -/
theorem childIds_stripNSL :
    ∀ l : ElemList, childIds (stripNSL l) = childIds l
  | .nil => rfl
  | .cons e es => by
    simp [stripNSL, childIds, eid_stripNS, childIds_stripNSL es]

/-- Removing the first child of identity `c` erases `c` from the child
identities. -/
theorem childIds_removeFirstChild (c : Nat) :
    ∀ l : ElemList, childIds (removeFirstChild c l) = (childIds l).erase c
  | .nil => rfl
  | .cons e es => by
    by_cases h : e.eid = c
    · simp [removeFirstChild, h, childIds, List.erase_cons, h]
    · simp [removeFirstChild, h, childIds, List.erase_cons, childIds_removeFirstChild c es]

/-- Identities of a concatenation of sibling lists. -/
theorem elemIdsL_append :
    ∀ l m : ElemList, elemIdsL (l.append m) = elemIdsL l ++ elemIdsL m
  | .nil, m => by simp [ElemList.append, elemIdsL]
  | .cons e es, m => by simp [ElemList.append, elemIdsL, elemIdsL_append es m]

/-- Child identities of a concatenation of sibling lists. -/
theorem childIds_append :
    ∀ l m : ElemList, childIds (l.append m) = childIds l ++ childIds m
  | .nil, m => by simp [ElemList.append, childIds]
  | .cons e es, m => by simp [ElemList.append, childIds, childIds_append es m]

/-- Search in a concatenation first searches the left part. -/
theorem getNodeByIdL_append (i : Nat) :
    ∀ l m : ElemList, getNodeByIdL i (l.append m)
      = match getNodeByIdL i l with
        | some r => some r
        | none => getNodeByIdL i m
  | .nil, m => by simp [ElemList.append, getNodeByIdL]
  | .cons e es, m => by
    simp only [ElemList.append, getNodeByIdL]
    rcases h : getNodeById i e with _ | r
    · simp [getNodeByIdL_append i es m]
    · rfl

end SvgEmbed

namespace SvgEmbed

mutual
/-- Identity search fails exactly when the identity is absent. -/
theorem getNodeById_none_iff (i : Nat) :
    ∀ e : Elem, getNodeById i e = none ↔ i ∉ elemIds e
  | .node j t a tx cs => by
    simp only [getNodeById, elemIds]
    by_cases h : j = i
    · subst h; simp
    · rw [if_neg h, getNodeByIdL_none_iff i cs]
      constructor
      · intro h2 h3
        rcases List.mem_cons.mp h3 with h4 | h4
        · exact h h4.symm
        · exact h2 h4
      · intro h2 h3
        exact h2 (List.mem_cons_of_mem _ h3)
/-- Identity search in a sibling list fails exactly when absent. -/
theorem getNodeByIdL_none_iff (i : Nat) :
    ∀ l : ElemList, getNodeByIdL i l = none ↔ i ∉ elemIdsL l
  | .nil => by simp [getNodeByIdL, elemIdsL]
  | .cons e es => by
    simp only [getNodeByIdL, elemIdsL]
    rcases h : getNodeById i e with _ | r
    · have he : i ∉ elemIds e := (getNodeById_none_iff i e).mp h
      rw [getNodeByIdL_none_iff i es]
      simp [List.mem_append, he]
    · have hin : i ∈ elemIds e := by
        by_contra hni
        rw [(getNodeById_none_iff i e).mpr hni] at h
        exact Option.noConfusion h
      simp [List.mem_append, hin]
end

mutual
/-- A found element carries the identity searched for. -/
theorem getNodeById_eid (i : Nat) :
    ∀ (e n : Elem), getNodeById i e = some n → n.eid = i
  | .node j t a tx cs, n => by
    simp only [getNodeById]
    by_cases h : j = i
    · rw [if_pos h]
      intro h2
      cases h2
      simp [Elem.eid, h]
    · rw [if_neg h]
      exact getNodeByIdL_eid i cs n
/-- A found sibling-list element carries the identity searched for. -/
theorem getNodeByIdL_eid (i : Nat) :
    ∀ (l : ElemList) (n : Elem), getNodeByIdL i l = some n → n.eid = i
  | .nil, n => by simp [getNodeByIdL]
  | .cons e es, n => by
    simp only [getNodeByIdL]
    rcases h : getNodeById i e with _ | r
    · exact getNodeByIdL_eid i es n
    · intro h2
      cases h2
      exact getNodeById_eid i e _ h
end

mutual
/-- Preorder identities are the identities of the preorder elements. -/
theorem elemIds_eq_map_allNodes : ∀ e : Elem, elemIds e = (allNodes e).map Elem.eid
  | .node j t a tx cs => by
    simp [elemIds, allNodes, Elem.eid, elemIdsL_eq_map_allNodesL cs]
/-- Sibling-list version of `elemIds_eq_map_allNodes`. -/
theorem elemIdsL_eq_map_allNodesL : ∀ l : ElemList, elemIdsL l = (allNodesL l).map Elem.eid
  | .nil => rfl
  | .cons e es => by
    simp [elemIdsL, allNodesL, elemIds_eq_map_allNodes e, elemIdsL_eq_map_allNodesL es]
end

/-- Every element is its own first preorder element. -/
theorem self_mem_allNodes (e : Elem) : e ∈ allNodes e := by
  cases e; simp [allNodes]

mutual
/-- A found element is an element of the tree. -/
theorem getNodeById_mem (i : Nat) :
    ∀ (e n : Elem), getNodeById i e = some n → n ∈ allNodes e
  | .node j t a tx cs, n => by
    simp only [getNodeById, allNodes]
    by_cases h : j = i
    · rw [if_pos h]
      intro h2
      cases h2
      exact List.mem_cons_self _ _
    · rw [if_neg h]
      intro h2
      exact List.mem_cons_of_mem _ (getNodeByIdL_mem i cs n h2)
/-- A found sibling-list element is an element of the forest. -/
theorem getNodeByIdL_mem (i : Nat) :
    ∀ (l : ElemList) (n : Elem), getNodeByIdL i l = some n → n ∈ allNodesL l
  | .nil, n => by simp [getNodeByIdL]
  | .cons e es, n => by
    simp only [getNodeByIdL, allNodesL]
    rcases h : getNodeById i e with _ | r
    · intro h2
      exact List.mem_append_right _ (getNodeByIdL_mem i es n h2)
    · intro h2
      cases h2
      exact List.mem_append_left _ (getNodeById_mem i e _ h)
end

mutual
/-- The identities of a found element are identities of the tree. -/
theorem getNodeById_subset (i : Nat) :
    ∀ (e n : Elem), getNodeById i e = some n → ∀ x ∈ elemIds n, x ∈ elemIds e
  | .node j t a tx cs, n => by
    simp only [getNodeById]
    by_cases h : j = i
    · rw [if_pos h]
      intro h2
      cases h2
      exact fun x hx => hx
    · rw [if_neg h]
      intro h2 x hx
      simp only [elemIds]
      exact List.mem_cons_of_mem _ (getNodeByIdL_subset i cs n h2 x hx)
/-- Sibling-list version of `getNodeById_subset`. -/
theorem getNodeByIdL_subset (i : Nat) :
    ∀ (l : ElemList) (n : Elem), getNodeByIdL i l = some n → ∀ x ∈ elemIds n, x ∈ elemIdsL l
  | .nil, n => by simp [getNodeByIdL]
  | .cons e es, n => by
    simp only [getNodeByIdL, elemIdsL]
    rcases h : getNodeById i e with _ | r
    · intro h2 x hx
      exact List.mem_append_right _ (getNodeByIdL_subset i es n h2 x hx)
    · intro h2 x hx
      cases h2
      exact List.mem_append_left _ (getNodeById_subset i e _ h x hx)
end

mutual
/-- With pairwise distinct identities, every element of the tree is found
by searching its identity. -/
theorem mem_allNodes_getNodeById :
    ∀ e : Elem, (elemIds e).Nodup → ∀ n ∈ allNodes e, getNodeById n.eid e = some n
  | .node j t a tx cs => by
    intro hnd n hn
    simp only [allNodes] at hn
    simp only [elemIds] at hnd
    rcases List.mem_cons.mp hn with rfl | hn2
    · simp [getNodeById, Elem.eid]
    · have hne : n.eid ≠ j := by
        intro hEq
        have h2 : n.eid ∈ elemIdsL cs := by
          rw [elemIdsL_eq_map_allNodesL]
          exact List.mem_map_of_mem _ hn2
        exact (List.nodup_cons.mp hnd).1 (hEq ▸ h2)
      simp only [getNodeById]
      rw [if_neg (fun h => hne h.symm)]
      exact mem_allNodesL_getNodeByIdL cs (List.nodup_cons.mp hnd).2 n hn2
/-- Sibling-list version of `mem_allNodes_getNodeById`. -/
theorem mem_allNodesL_getNodeByIdL :
    ∀ l : ElemList, (elemIdsL l).Nodup → ∀ n ∈ allNodesL l, getNodeByIdL n.eid l = some n
  | .nil => by
    intro _ n hn
    simp [allNodesL] at hn
  | .cons e es => by
    intro hnd n hn
    simp only [elemIdsL] at hnd
    have hparts := List.nodup_append.mp hnd
    simp only [allNodesL] at hn
    rcases List.mem_append.mp hn with h1 | h1
    · have h2 := mem_allNodes_getNodeById e hparts.1 n h1
      simp [getNodeByIdL, h2]
    · have hnone : getNodeById n.eid e = none := by
        rw [getNodeById_none_iff]
        intro hin
        have h2 : n.eid ∈ elemIdsL es := by
          rw [elemIdsL_eq_map_allNodesL]
          exact List.mem_map_of_mem _ h1
        exact hparts.2.2 hin h2
      have h3 := mem_allNodesL_getNodeByIdL es hparts.2.1 n h1
      simp [getNodeByIdL, hnone, h3]
end

mutual
/-- Every identity reported by the image scan belongs to an image-tagged
element of the tree. -/
theorem descImages_spec :
    ∀ e : Elem, ∀ j ∈ descImages e, ∃ n, n ∈ allNodes e ∧ n.eid = j ∧ n.tag = svgImageTag
  | .node i t a tx cs => by
    intro j hj
    simp only [descImages] at hj
    rcases descImagesL_spec cs j hj with ⟨n, hn, h1, h2⟩
    exact ⟨n, by simp only [allNodes]; exact List.mem_cons_of_mem _ hn, h1, h2⟩
/-- Sibling-list version of `descImages_spec`. -/
theorem descImagesL_spec :
    ∀ l : ElemList, ∀ j ∈ descImagesL l, ∃ n, n ∈ allNodesL l ∧ n.eid = j ∧ n.tag = svgImageTag
  | .nil => by
    intro j hj
    simp [descImagesL] at hj
  | .cons e es => by
    intro j hj
    simp only [descImagesL] at hj
    rcases List.mem_append.mp hj with hj1 | hj2
    · rcases List.mem_append.mp hj1 with hj3 | hj4
      · by_cases ht : e.tag = svgImageTag
        · rw [if_pos ht] at hj3
          have hj5 : j = e.eid := List.mem_singleton.mp hj3
          exact ⟨e, by simp only [allNodesL]; exact List.mem_append_left _ (self_mem_allNodes e),
            hj5.symm, ht⟩
        · rw [if_neg ht] at hj3
          simp at hj3
      · rcases descImages_spec e j hj4 with ⟨n, hn, h⟩
        exact ⟨n, by simp only [allNodesL]; exact List.mem_append_left _ hn, h⟩
    · rcases descImagesL_spec es j hj2 with ⟨n, hn, h⟩
      exact ⟨n, by simp only [allNodesL]; exact List.mem_append_right _ hn, h⟩
end

/-- The image scan of a forest reports a sub-list of the identities. -/
theorem descImagesL_sublist : ∀ l : ElemList, List.Sublist (descImagesL l) (elemIdsL l)
  | .nil => List.Sublist.refl _
  | .cons e es => by
    simp only [descImagesL, elemIdsL]
    have h1 : List.Sublist ((if e.tag = svgImageTag then [e.eid] else []) ++ descImages e)
        (elemIds e) := by
      cases e with
      | node a t at2 tx cs =>
        simp only [descImages, elemIds, Elem.tag, Elem.eid]
        by_cases ht : t = svgImageTag
        · rw [if_pos ht]
          simp only [List.singleton_append]
          exact (descImagesL_sublist cs).cons₂ a
        · rw [if_neg ht]
          simp only [List.nil_append]
          exact (descImagesL_sublist cs).cons a
    exact h1.append (descImagesL_sublist es)

/-- The image scan reports a sub-list of the tree's identities. -/
theorem descImages_sublist (e : Elem) : List.Sublist (descImages e) (elemIds e) := by
  cases e with
  | node a t at2 tx cs =>
    simp only [descImages, elemIds]
    exact (descImagesL_sublist cs).cons a

mutual
/-- Every identity of a tree is bounded by `maxId`. -/
theorem maxId_bound : ∀ e : Elem, ∀ i ∈ elemIds e, i ≤ maxId e
  | .node j t a tx cs => by
    intro i hi
    simp only [elemIds] at hi
    simp only [maxId]
    rcases List.mem_cons.mp hi with rfl | h2
    · exact le_max_left _ _
    · exact le_trans (maxIdL_bound cs i h2) (le_max_right _ _)
/-- Every identity of a forest is bounded by `maxIdL`. -/
theorem maxIdL_bound : ∀ l : ElemList, ∀ i ∈ elemIdsL l, i ≤ maxIdL l
  | .nil => by
    intro i hi
    simp [elemIdsL] at hi
  | .cons e es => by
    intro i hi
    simp only [elemIdsL] at hi
    simp only [maxIdL]
    rcases List.mem_append.mp hi with h1 | h1
    · exact le_trans (maxId_bound e i h1) (le_max_left _ _)
    · exact le_trans (maxIdL_bound es i h1) (le_max_right _ _)
end

end SvgEmbed

namespace SvgEmbed

/-- Child identities are identities of the forest. -/
theorem childIds_subset : ∀ l : ElemList, ∀ x ∈ childIds l, x ∈ elemIdsL l
  | .nil => by intro x hx; simp [childIds] at hx
  | .cons e es => by
    intro x hx
    simp only [childIds] at hx
    simp only [elemIdsL]
    rcases List.mem_cons.mp hx with rfl | h2
    · apply List.mem_append_left
      cases e
      simp [elemIds, Elem.eid]
    · exact List.mem_append_right _ (childIds_subset es x h2)

/-- Removing an absent child identity is a no-op. -/
theorem removeFirstChild_id (c : Nat) :
    ∀ l : ElemList, c ∉ childIds l → removeFirstChild c l = l
  | .nil => by intro _; rfl
  | .cons e es => by
    intro h
    simp only [childIds, List.mem_cons] at h
    push_neg at h
    simp [removeFirstChild, Ne.symm h.1, removeFirstChild_id c es h.2]

mutual
/-- Updating an attribute of an absent identity is a no-op. -/
theorem setAttrById_id (i : Nat) (k v : String) :
    ∀ e : Elem, i ∉ elemIds e → setAttrById i k v e = e
  | .node j t a tx cs => by
    intro h
    simp only [elemIds, List.mem_cons] at h
    push_neg at h
    simp [setAttrById, Ne.symm h.1, setAttrByIdL_id i k v cs h.2]
/-- Sibling-list version of `setAttrById_id`. -/
theorem setAttrByIdL_id (i : Nat) (k v : String) :
    ∀ l : ElemList, i ∉ elemIdsL l → setAttrByIdL i k v l = l
  | .nil => by intro _; rfl
  | .cons e es => by
    intro h
    simp only [elemIdsL, List.mem_append] at h
    push_neg at h
    simp [setAttrByIdL, setAttrById_id i k v e h.1, setAttrByIdL_id i k v es h.2]
end

mutual
/-- Removing a child identity absent from the tree is a no-op. -/
theorem removeChildById_id (p c : Nat) :
    ∀ e : Elem, c ∉ elemIds e → removeChildById p c e = e
  | .node j t a tx cs => by
    intro h
    simp only [elemIds, List.mem_cons] at h
    push_neg at h
    have h2 := removeChildByIdL_id p c cs h.2
    have h3 : removeFirstChild c cs = cs :=
      removeFirstChild_id c cs (fun hx => h.2 (childIds_subset cs c hx))
    by_cases hj : j = p
    · simp [removeChildById, hj, h2, h3]
    · simp [removeChildById, hj, h2]
/-- Sibling-list version of `removeChildById_id`. -/
theorem removeChildByIdL_id (p c : Nat) :
    ∀ l : ElemList, c ∉ elemIdsL l → removeChildByIdL p c l = l
  | .nil => by intro _; rfl
  | .cons e es => by
    intro h
    simp only [elemIdsL, List.mem_append] at h
    push_neg at h
    simp [removeChildByIdL, removeChildById_id p c e h.1, removeChildByIdL_id p c es h.2]
end

mutual
/-- Appending under an absent identity is a no-op. -/
theorem appendChildById_id (p : Nat) (nc : Elem) :
    ∀ e : Elem, p ∉ elemIds e → appendChildById p nc e = e
  | .node j t a tx cs => by
    intro h
    simp only [elemIds, List.mem_cons] at h
    push_neg at h
    simp [appendChildById, Ne.symm h.1, appendChildByIdL_id p nc cs h.2]
/-- Sibling-list version of `appendChildById_id`. -/
theorem appendChildByIdL_id (p : Nat) (nc : Elem) :
    ∀ l : ElemList, p ∉ elemIdsL l → appendChildByIdL p nc l = l
  | .nil => by intro _; rfl
  | .cons e es => by
    intro h
    simp only [elemIdsL, List.mem_append] at h
    push_neg at h
    simp [appendChildByIdL, appendChildById_id p nc e h.1, appendChildByIdL_id p nc es h.2]
end

mutual
/-- Attribute update acts on found subtrees: search in the updated tree
is the update of the search. -/
theorem getNodeById_setAttrById (i2 i : Nat) (k v : String) :
    ∀ e : Elem, getNodeById i2 (setAttrById i k v e)
      = Option.map (setAttrById i k v) (getNodeById i2 e)
  | .node j t a tx cs => by
    simp only [setAttrById, getNodeById]
    by_cases h : j = i2
    · simp [h, setAttrById]
    · simp only [if_neg h]
      exact getNodeByIdL_setAttrByIdL i2 i k v cs
/-- Sibling-list version of `getNodeById_setAttrById`. -/
theorem getNodeByIdL_setAttrByIdL (i2 i : Nat) (k v : String) :
    ∀ l : ElemList, getNodeByIdL i2 (setAttrByIdL i k v l)
      = Option.map (setAttrById i k v) (getNodeByIdL i2 l)
  | .nil => rfl
  | .cons e es => by
    simp only [setAttrByIdL, getNodeByIdL]
    rw [getNodeById_setAttrById i2 i k v e]
    rcases h : getNodeById i2 e with _ | r
    · simp [getNodeByIdL_setAttrByIdL i2 i k v es]
    · simp
end

end SvgEmbed

namespace SvgEmbed

/-- Dropping a child keeps a sub-list of the forest identities. -/
theorem elemIdsL_removeFirstChild_sublist (c : Nat) :
    ∀ l : ElemList, List.Sublist (elemIdsL (removeFirstChild c l)) (elemIdsL l)
  | .nil => List.Sublist.refl _
  | .cons e es => by
    by_cases h : e.eid = c
    · simp only [removeFirstChild, if_pos h, elemIdsL]
      exact List.sublist_append_right _ _
    · simp only [removeFirstChild, if_neg h, elemIdsL]
      exact (elemIdsL_removeFirstChild_sublist c es).append_left _

mutual
/-- Child removal keeps a sub-list of the tree identities. -/
theorem elemIds_removeChildById_sublist (p c : Nat) :
    ∀ e : Elem, List.Sublist (elemIds (removeChildById p c e)) (elemIds e)
  | .node j t a tx cs => by
    simp only [removeChildById, elemIds]
    by_cases h : j = p
    · rw [if_pos h]
      exact ((elemIdsL_removeFirstChild_sublist c _).trans
        (elemIdsL_removeChildByIdL_sublist p c cs)).cons₂ j
    · rw [if_neg h]
      exact (elemIdsL_removeChildByIdL_sublist p c cs).cons₂ j
/-- Sibling-list version of `elemIds_removeChildById_sublist`. -/
theorem elemIdsL_removeChildByIdL_sublist (p c : Nat) :
    ∀ l : ElemList, List.Sublist (elemIdsL (removeChildByIdL p c l)) (elemIdsL l)
  | .nil => List.Sublist.refl _
  | .cons e es => by
    simp only [removeChildByIdL, elemIdsL]
    exact (elemIds_removeChildById_sublist p c e).append (elemIdsL_removeChildByIdL_sublist p c es)
end

mutual
/-- Child removal acts on found subtrees, provided the searched identity
does not lie in the removed subtree (the subtree of identity `c`). -/
theorem getNodeById_removeChildById (i p c : Nat) :
    ∀ e : Elem, (elemIds e).Nodup →
      (∀ m, getNodeById c e = some m → i ∉ elemIds m) →
      getNodeById i (removeChildById p c e)
        = Option.map (removeChildById p c) (getNodeById i e)
  | .node j t a tx cs => by
    intro hnd hout
    simp only [removeChildById, getNodeById]
    by_cases hji : j = i
    · simp [hji, removeChildById]
    · simp only [if_neg hji]
      by_cases hjc : j = c
      · have hie : i ∉ elemIds (Elem.node j t a tx cs) := by
          apply hout
          simp [getNodeById, hjc]
        have hics : i ∉ elemIdsL cs := by
          intro h2
          exact hie (by simp only [elemIds]; exact List.mem_cons_of_mem _ h2)
        have hl : getNodeByIdL i cs = none := (getNodeByIdL_none_iff i cs).mpr hics
        rw [hl]
        have : i ∉ elemIdsL (if j = p then removeFirstChild c (removeChildByIdL p c cs)
            else removeChildByIdL p c cs) := by
          intro h2
          apply hics
          by_cases hjp : j = p
          · rw [if_pos hjp] at h2
            exact (elemIdsL_removeChildByIdL_sublist p c cs).mem
              ((elemIdsL_removeFirstChild_sublist c _).mem h2)
          · rw [if_neg hjp] at h2
            exact (elemIdsL_removeChildByIdL_sublist p c cs).mem h2
        rw [(getNodeByIdL_none_iff i _).mpr this]
        rfl
      · have hnd2 : (elemIdsL cs).Nodup := by
          simp only [elemIds] at hnd
          exact (List.nodup_cons.mp hnd).2
        have hout2 : ∀ m, getNodeByIdL c cs = some m → i ∉ elemIds m := by
          intro m hm
          apply hout
          simp only [getNodeById]
          rw [if_neg hjc]
          exact hm
        by_cases hjp : j = p
        · rw [if_pos hjp]
          exact getNodeByIdL_removeChildByIdL_rf i p c cs hnd2 hout2
        · rw [if_neg hjp]
          exact getNodeByIdL_removeChildByIdL i p c cs hnd2 hout2
/-- Sibling-list version of `getNodeById_removeChildById`. -/
theorem getNodeByIdL_removeChildByIdL (i p c : Nat) :
    ∀ l : ElemList, (elemIdsL l).Nodup →
      (∀ m, getNodeByIdL c l = some m → i ∉ elemIds m) →
      getNodeByIdL i (removeChildByIdL p c l)
        = Option.map (removeChildById p c) (getNodeByIdL i l)
  | .nil => by intro _ _; rfl
  | .cons e es => by
    intro hnd hout
    simp only [elemIdsL] at hnd
    have hparts := List.nodup_append.mp hnd
    simp only [removeChildByIdL, getNodeByIdL]
    have houte : ∀ m, getNodeById c e = some m → i ∉ elemIds m := by
      intro m hm
      apply hout
      simp [getNodeByIdL, hm]
    have houtes : ∀ m, getNodeByIdL c es = some m → i ∉ elemIds m := by
      rcases hc : getNodeById c e with _ | m2
      · intro m hm
        apply hout
        simp [getNodeByIdL, hc, hm]
      · have hcin : c ∈ elemIds e := by
          by_contra h2
          rw [(getNodeById_none_iff c e).mpr h2] at hc
          exact Option.noConfusion hc
        have : c ∉ elemIdsL es := fun h2 => hparts.2.2 hcin h2
        intro m hm
        rw [(getNodeByIdL_none_iff c es).mpr this] at hm
        exact Option.noConfusion hm
    rw [getNodeById_removeChildById i p c e hparts.1 houte]
    rcases h : getNodeById i e with _ | r
    · simp only [Option.map_none]
      exact getNodeByIdL_removeChildByIdL i p c es hparts.2.1 houtes
    · rfl
/-- Variant for the parent node itself, whose child list had the first
`c` child dropped. -/
theorem getNodeByIdL_removeChildByIdL_rf (i p c : Nat) :
    ∀ l : ElemList, (elemIdsL l).Nodup →
      (∀ m, getNodeByIdL c l = some m → i ∉ elemIds m) →
      getNodeByIdL i (removeFirstChild c (removeChildByIdL p c l))
        = Option.map (removeChildById p c) (getNodeByIdL i l)
  | .nil => by intro _ _; rfl
  | .cons e es => by
    intro hnd hout
    simp only [elemIdsL] at hnd
    have hparts := List.nodup_append.mp hnd
    simp only [removeChildByIdL, getNodeByIdL]
    by_cases hec : e.eid = c
    · have hce : getNodeById c e = some e := by
        cases e with
        | node a t2 a2 tx2 cs2 =>
          simp only [Elem.eid] at hec
          simp [getNodeById, hec]
      have hie : i ∉ elemIds e := hout e (by simp [getNodeByIdL, hce])
      have hnone : getNodeById i e = none := (getNodeById_none_iff i e).mpr hie
      rw [hnone]
      have hre : (removeChildById p c e).eid = c := by rw [eid_removeChildById]; exact hec
      simp only [removeFirstChild, hre, if_pos rfl]
      have hcin : c ∈ elemIds e := by
        cases e with
        | node a t2 a2 tx2 cs2 =>
          simp only [Elem.eid] at hec
          simp [elemIds, hec]
      have houtes : ∀ m, getNodeByIdL c es = some m → i ∉ elemIds m := by
        have : c ∉ elemIdsL es := fun h2 => hparts.2.2 hcin h2
        intro m hm
        rw [(getNodeByIdL_none_iff c es).mpr this] at hm
        exact Option.noConfusion hm
      exact getNodeByIdL_removeChildByIdL i p c es hparts.2.1 houtes
    · have hre : (removeChildById p c e).eid ≠ c := by rw [eid_removeChildById]; exact hec
      simp only [removeFirstChild, if_neg hre]
      simp only [getNodeByIdL]
      have houte : ∀ m, getNodeById c e = some m → i ∉ elemIds m := by
        intro m hm
        apply hout
        simp [getNodeByIdL, hm]
      have houtes : ∀ m, getNodeByIdL c es = some m → i ∉ elemIds m := by
        rcases hc : getNodeById c e with _ | m2
        · intro m hm
          apply hout
          simp [getNodeByIdL, hc, hm]
        · have hcin : c ∈ elemIds e := by
            by_contra h2
            rw [(getNodeById_none_iff c e).mpr h2] at hc
            exact Option.noConfusion hc
          have : c ∉ elemIdsL es := fun h2 => hparts.2.2 hcin h2
          intro m hm
          rw [(getNodeByIdL_none_iff c es).mpr this] at hm
          exact Option.noConfusion hm
      rw [getNodeById_removeChildById i p c e hparts.1 houte]
      rcases h : getNodeById i e with _ | r
      · simp only [Option.map_none]
        exact getNodeByIdL_removeChildByIdL_rf i p c es hparts.2.1 houtes
      · rfl
end

end SvgEmbed

namespace SvgEmbed

mutual
/-- Identities after an append come from the tree or the new child. -/
theorem elemIds_appendChildById_subset (p : Nat) (nc : Elem) :
    ∀ e : Elem, ∀ x ∈ elemIds (appendChildById p nc e), x ∈ elemIds e ∨ x ∈ elemIds nc
  | .node j t a tx cs => by
    intro x hx
    simp only [appendChildById, elemIds] at hx
    by_cases h : j = p
    · rw [if_pos h, elemIdsL_append] at hx
      rcases List.mem_cons.mp hx with rfl | hx2
      · exact Or.inl (by simp [elemIds])
      · rcases List.mem_append.mp hx2 with h3 | h3
        · rcases elemIdsL_appendChildByIdL_subset p nc cs x h3 with h4 | h4
          · exact Or.inl (by simp only [elemIds]; exact List.mem_cons_of_mem _ h4)
          · exact Or.inr h4
        · simp only [elemIdsL] at h3
          rw [List.append_nil] at h3
          exact Or.inr h3
    · rw [if_neg h] at hx
      rcases List.mem_cons.mp hx with rfl | hx2
      · exact Or.inl (by simp [elemIds])
      · rcases elemIdsL_appendChildByIdL_subset p nc cs x hx2 with h4 | h4
        · exact Or.inl (by simp only [elemIds]; exact List.mem_cons_of_mem _ h4)
        · exact Or.inr h4
/-- Sibling-list version of `elemIds_appendChildById_subset`. -/
theorem elemIdsL_appendChildByIdL_subset (p : Nat) (nc : Elem) :
    ∀ l : ElemList, ∀ x ∈ elemIdsL (appendChildByIdL p nc l), x ∈ elemIdsL l ∨ x ∈ elemIds nc
  | .nil => by intro x hx; simp [appendChildByIdL, elemIdsL] at hx
  | .cons e es => by
    intro x hx
    simp only [appendChildByIdL, elemIdsL] at hx
    simp only [elemIdsL]
    rcases List.mem_append.mp hx with h1 | h1
    · rcases elemIds_appendChildById_subset p nc e x h1 with h2 | h2
      · exact Or.inl (List.mem_append_left _ h2)
      · exact Or.inr h2
    · rcases elemIdsL_appendChildByIdL_subset p nc es x h1 with h2 | h2
      · exact Or.inl (List.mem_append_right _ h2)
      · exact Or.inr h2
end

mutual
/-- Appending acts on found subtrees, provided the searched identity is
not an identity of the appended child. -/
theorem getNodeById_appendChildById (i p : Nat) (nc : Elem) :
    ∀ e : Elem, i ∉ elemIds nc →
      getNodeById i (appendChildById p nc e)
        = Option.map (appendChildById p nc) (getNodeById i e)
  | .node j t a tx cs => by
    intro hnc
    simp only [appendChildById, getNodeById]
    by_cases hji : j = i
    · simp [hji, appendChildById]
    · simp only [if_neg hji]
      by_cases hjp : j = p
      · rw [if_pos hjp, getNodeByIdL_append]
        rw [getNodeByIdL_appendChildByIdL i p nc cs hnc]
        rcases h : getNodeByIdL i cs with _ | r
        · simp [getNodeByIdL, (getNodeById_none_iff i nc).mpr hnc]
        · rfl
      · rw [if_neg hjp]
        exact getNodeByIdL_appendChildByIdL i p nc cs hnc
/-- Sibling-list version of `getNodeById_appendChildById`. -/
theorem getNodeByIdL_appendChildByIdL (i p : Nat) (nc : Elem) :
    ∀ l : ElemList, i ∉ elemIds nc →
      getNodeByIdL i (appendChildByIdL p nc l)
        = Option.map (appendChildById p nc) (getNodeByIdL i l)
  | .nil => by intro _; rfl
  | .cons e es => by
    intro hnc
    simp only [appendChildByIdL, getNodeByIdL]
    rw [getNodeById_appendChildById i p nc e hnc]
    rcases h : getNodeById i e with _ | r
    · simp only [Option.map_none]
      exact getNodeByIdL_appendChildByIdL i p nc es hnc
    · rfl
end

mutual
/-- The appended child is found by its identity whenever the target
parent exists and the child's identity is fresh. -/
theorem getNodeById_appendChildById_self (p : Nat) (nc : Elem) :
    ∀ e : Elem, nc.eid ∉ elemIds e →
      getNodeById nc.eid (appendChildById p nc e)
        = if p ∈ elemIds e then some nc else none
  | .node j t a tx cs => by
    intro hq
    simp only [elemIds, List.mem_cons] at hq
    push_neg at hq
    simp only [appendChildById, getNodeById, elemIds]
    rw [if_neg (fun h => hq.1 h.symm)]
    by_cases hjp : j = p
    · rw [if_pos hjp, getNodeByIdL_append]
      rw [getNodeByIdL_appendChildByIdL_self p nc cs hq.2]
      by_cases hp : p ∈ elemIdsL cs
      · rw [if_pos hp, if_pos (List.mem_cons_of_mem _ hp)]
      · rw [if_neg hp]
        have : getNodeById nc.eid nc = some nc := by
          cases nc
          simp [getNodeById, Elem.eid]
        simp only [getNodeByIdL, this]
        rw [if_pos (List.mem_cons.mpr (Or.inl hjp.symm))]
    · rw [if_neg hjp, getNodeByIdL_appendChildByIdL_self p nc cs hq.2]
      by_cases hp : p ∈ elemIdsL cs
      · rw [if_pos hp, if_pos (List.mem_cons_of_mem _ hp)]
      · rw [if_neg hp, if_neg]
        intro h2
        rcases List.mem_cons.mp h2 with h3 | h3
        · exact hjp h3.symm
        · exact hp h3
/-- Sibling-list version of `getNodeById_appendChildById_self`. -/
theorem getNodeByIdL_appendChildByIdL_self (p : Nat) (nc : Elem) :
    ∀ l : ElemList, nc.eid ∉ elemIdsL l →
      getNodeByIdL nc.eid (appendChildByIdL p nc l)
        = if p ∈ elemIdsL l then some nc else none
  | .nil => by intro _; simp [appendChildByIdL, getNodeByIdL, elemIdsL]
  | .cons e es => by
    intro hq
    simp only [elemIdsL, List.mem_append] at hq
    push_neg at hq
    simp only [appendChildByIdL, getNodeByIdL, elemIdsL]
    rw [getNodeById_appendChildById_self p nc e hq.1]
    by_cases hp : p ∈ elemIds e
    · rw [if_pos hp, if_pos (List.mem_append_left _ hp)]
    · rw [if_neg hp, getNodeByIdL_appendChildByIdL_self p nc es hq.2]
      by_cases hp2 : p ∈ elemIdsL es
      · rw [if_pos hp2, if_pos (List.mem_append_right _ hp2)]
      · rw [if_neg hp2, if_neg]
        intro h2
        rcases List.mem_append.mp h2 with h3 | h3
        · exact hp h3
        · exact hp2 h3
end

end SvgEmbed

namespace SvgEmbed

mutual
/-- Appending a fresh child preserves distinctness of identities. -/
theorem nodup_appendChildById (p : Nat) (nc : Elem) :
    ∀ e : Elem, (elemIds e).Nodup → (elemIds nc).Nodup →
      (∀ x ∈ elemIds nc, x ∉ elemIds e) →
      (elemIds (appendChildById p nc e)).Nodup
  | .node j t a tx cs => by
    intro hnd hnc hdisj
    simp only [elemIds] at hnd hdisj
    have hparts := List.nodup_cons.mp hnd
    simp only [appendChildById, elemIds]
    by_cases hjp : j = p
    · rw [if_pos hjp]
      have hps : p ∉ elemIdsL cs := hjp ▸ hparts.1
      rw [appendChildByIdL_id p nc cs hps, elemIdsL_append]
      simp only [elemIdsL, List.append_nil]
      rw [List.nodup_cons, List.nodup_append]
      refine ⟨?_, hparts.2, hnc, ?_⟩
      · intro h2
        rcases List.mem_append.mp h2 with h3 | h3
        · exact hparts.1 h3
        · exact hdisj j h3 (List.mem_cons_self _ _)
      · intro x hx hx2
        exact hdisj x hx2 (List.mem_cons_of_mem _ hx)
    · rw [if_neg hjp, List.nodup_cons]
      constructor
      · intro h2
        rcases elemIdsL_appendChildByIdL_subset p nc cs j h2 with h3 | h3
        · exact hparts.1 h3
        · exact hdisj j h3 (List.mem_cons_self _ _)
      · exact nodup_appendChildByIdL p nc cs hparts.2 hnc
          (fun x hx hx2 => hdisj x hx (List.mem_cons_of_mem _ hx2))
/-- Sibling-list version of `nodup_appendChildById`. -/
theorem nodup_appendChildByIdL (p : Nat) (nc : Elem) :
    ∀ l : ElemList, (elemIdsL l).Nodup → (elemIds nc).Nodup →
      (∀ x ∈ elemIds nc, x ∉ elemIdsL l) →
      (elemIdsL (appendChildByIdL p nc l)).Nodup
  | .nil => by intro _ _ _; simp [appendChildByIdL, elemIdsL]
  | .cons e es => by
    intro hnd hnc hdisj
    simp only [elemIdsL] at hnd hdisj
    have hparts := List.nodup_append.mp hnd
    simp only [appendChildByIdL, elemIdsL]
    rw [List.nodup_append]
    by_cases hp : p ∈ elemIds e
    · have hpes : p ∉ elemIdsL es := fun h2 => hparts.2.2 hp h2
      rw [appendChildByIdL_id p nc es hpes]
      refine ⟨nodup_appendChildById p nc e hparts.1 hnc
        (fun x hx hx2 => hdisj x hx (List.mem_append_left _ hx2)), hparts.2.1, ?_⟩
      intro x hx hx2
      rcases elemIds_appendChildById_subset p nc e x hx with h3 | h3
      · exact hparts.2.2 h3 hx2
      · exact hdisj x h3 (List.mem_append_right _ hx2)
    · rw [appendChildById_id p nc e hp]
      refine ⟨hparts.1, nodup_appendChildByIdL p nc es hparts.2.1 hnc
        (fun x hx hx2 => hdisj x hx (List.mem_append_right _ hx2)), ?_⟩
      intro x hx hx2
      rcases elemIdsL_appendChildByIdL_subset p nc es x hx2 with h3 | h3
      · exact hparts.2.2 hx h3
      · exact hdisj x h3 (List.mem_append_left _ hx)
end

mutual
/-- Fresh-identity assignment: the counter grows, all assigned
identities lie in the assigned interval, and they are distinct. -/
theorem assignIds_spec :
    ∀ (r : RawElem) (k : Nat),
      k < (assignIds k r).2
      ∧ (∀ i ∈ elemIds (assignIds k r).1, k ≤ i ∧ i < (assignIds k r).2)
      ∧ (elemIds (assignIds k r).1).Nodup
  | .node t a tx cs, k => by
    have h := assignIdsL_spec cs (k + 1)
    simp only [assignIds, elemIds]
    refine ⟨lt_of_lt_of_le (Nat.lt_succ_self k) h.1, ?_, ?_⟩
    · intro i hi
      rcases List.mem_cons.mp hi with rfl | h2
      · exact ⟨le_refl i, lt_of_lt_of_le (Nat.lt_succ_self i) h.1⟩
      · have h3 := h.2.1 i h2
        exact ⟨le_trans (Nat.le_succ k) h3.1, h3.2⟩
    · rw [List.nodup_cons]
      refine ⟨?_, h.2.2⟩
      intro h2
      have h3 := h.2.1 k h2
      exact absurd h3.1 (by simp [Nat.lt_succ_self])
/-- Sibling-list version of `assignIds_spec`. -/
theorem assignIdsL_spec :
    ∀ (rs : RawElemList) (k : Nat),
      k ≤ (assignIdsL k rs).2
      ∧ (∀ i ∈ elemIdsL (assignIdsL k rs).1, k ≤ i ∧ i < (assignIdsL k rs).2)
      ∧ (elemIdsL (assignIdsL k rs).1).Nodup
  | .nil, k => by
    simp [assignIdsL, elemIdsL]
  | .cons e es, k => by
    have h1 := assignIds_spec e k
    have h2 := assignIdsL_spec es (assignIds k e).2
    simp only [assignIdsL, elemIdsL]
    refine ⟨le_trans (le_of_lt h1.1) h2.1, ?_, ?_⟩
    · intro i hi
      rcases List.mem_append.mp hi with h3 | h3
      · have h4 := h1.2.1 i h3
        exact ⟨h4.1, lt_of_lt_of_le h4.2 h2.1⟩
      · have h4 := h2.2.1 i h3
        exact ⟨le_trans (le_of_lt h1.1) h4.1, h4.2⟩
    · rw [List.nodup_append]
      refine ⟨h1.2.2, h2.2.2, ?_⟩
      intro x hx hx2
      have h3 := h1.2.1 x hx
      have h4 := h2.2.1 x hx2
      exact absurd (lt_of_lt_of_le h3.2 h4.1) (lt_irrefl x)
end

/-- The root of a freshly assigned tree carries the starting counter. -/
theorem assignIds_eid (r : RawElem) (k : Nat) : (assignIds k r).1.eid = k := by
  cases r
  simp [assignIds, Elem.eid]

end SvgEmbed

namespace SvgEmbed

/-- View of a tree after an attribute update. -/
theorem view_setAttrById (i : Nat) (k v : String) (e : Elem) :
    (setAttrById i k v e).view
      = if e.eid = i then ⟨e.view.tag, setAttr e.view.attrs k v, e.view.text, e.view.childIds⟩
        else e.view := by
  cases e with
  | node j t a tx cs =>
    simp only [setAttrById, Elem.view, Elem.eid, childIds_setAttrByIdL]
    by_cases h : j = i
    · simp [h]
    · simp [h]

/-- View of a tree after a child removal. -/
theorem view_removeChildById (p c : Nat) (e : Elem) :
    (removeChildById p c e).view
      = if e.eid = p then ⟨e.view.tag, e.view.attrs, e.view.text, e.view.childIds.erase c⟩
        else e.view := by
  cases e with
  | node j t a tx cs =>
    simp only [removeChildById, Elem.view, Elem.eid]
    by_cases h : j = p
    · simp [h, childIds_removeFirstChild, childIds_removeChildByIdL]
    · simp [h, childIds_removeChildByIdL]

/-- View of a tree after a child append. -/
theorem view_appendChildById (p : Nat) (nc : Elem) (e : Elem) :
    (appendChildById p nc e).view
      = if e.eid = p then ⟨e.view.tag, e.view.attrs, e.view.text, e.view.childIds ++ [nc.eid]⟩
        else e.view := by
  cases e with
  | node j t a tx cs =>
    simp only [appendChildById, Elem.view, Elem.eid]
    by_cases h : j = p
    · simp [h, childIds_append, childIds_appendChildByIdL, childIds, Elem.eid]
    · simp [h, childIds_appendChildByIdL]

/-- Namespace stripping keeps the attributes of the root. -/
theorem attrs_stripNS (e : Elem) : (stripNS e).attrs = e.attrs := by
  cases e; simp [stripNS, Elem.attrs]

/-- Namespace stripping keeps the text of the root. -/
theorem text_stripNS (e : Elem) : (stripNS e).text = e.text := by
  cases e; simp [stripNS, Elem.text]

/-- Namespace stripping rewrites the tag of the root. -/
theorem tag_stripNS (e : Elem) : (stripNS e).tag = stripNSTag e.tag := by
  cases e; simp [stripNS, Elem.tag]

mutual
/-- Namespace stripping keeps all identities. -/
theorem elemIds_stripNS : ∀ e : Elem, elemIds (stripNS e) = elemIds e
  | .node j t a tx cs => by simp [stripNS, elemIds, elemIdsL_stripNSL cs]
/-- Sibling-list version of `elemIds_stripNS`. -/
theorem elemIdsL_stripNSL : ∀ l : ElemList, elemIdsL (stripNSL l) = elemIdsL l
  | .nil => rfl
  | .cons e es => by simp [stripNSL, elemIdsL, elemIds_stripNS e, elemIdsL_stripNSL es]
end

/-- Root attribute update: identity. -/
theorem eid_setRootAttr (e : Elem) (k v : String) : (setRootAttr e k v).eid = e.eid := by
  cases e; simp [setRootAttr, Elem.eid]

/-- Root attribute update: attributes. -/
theorem attrs_setRootAttr (e : Elem) (k v : String) :
    (setRootAttr e k v).attrs = setAttr e.attrs k v := by
  cases e; simp [setRootAttr, Elem.attrs]

/-- Root attribute update: tag. -/
theorem tag_setRootAttr (e : Elem) (k v : String) : (setRootAttr e k v).tag = e.tag := by
  cases e; simp [setRootAttr, Elem.tag]

/-- Root attribute update: identities. -/
theorem elemIds_setRootAttr (e : Elem) (k v : String) :
    elemIds (setRootAttr e k v) = elemIds e := by
  cases e; simp [setRootAttr, elemIds]

end SvgEmbed

namespace SvgEmbed

/-- A loop iteration on an element whose reference is absent or fails the
`startswith("./assets/")` test leaves the state unchanged and prints
nothing. -/
theorem processImage_id_of_nonqual (env : Env) (pm : Nat → Option Nat) (d : Elem)
    (k imgId : Nat) (n : Elem)
    (hn : getNodeById imgId d = some n) (hq : hrefQualifies n = false) :
    processImageCore env pm d k imgId = ((d, k), []) := by
  simp only [processImageCore, hn]
  rcases hh : getAttr n.attrs hrefAttr with _ | fp
  · rfl
  · simp only [hrefQualifies, hh] at hq
    simp [hq]

/-- The general shape of the refresher loop fold. -/
theorem refresherLoop_general (w : World) :
    ∀ (ms : List (String × String)) (c : Nat) (l : List String),
      ms.foldl
        (fun s m =>
          (if fetch_and_save w m.1.trim m.2 then s.1 + 1 else s.1, s.2 ++ [m.1.trim]))
        (c, l)
      = (c + ms.countP (fun m => fetch_and_save w m.1.trim m.2),
         l ++ ms.map (fun m => m.1.trim)) := by
  intro ms
  induction ms with
  | nil => intro c l; simp
  | cons m ms ih =>
    intro c l
    rw [List.foldl_cons]
    by_cases h : fetch_and_save w m.1.trim m.2
    · simp only [if_pos h]
      rw [ih]
      rw [List.countP_cons]
      simp [h]
      omega
    · simp only [if_neg h]
      rw [ih]
      rw [List.countP_cons]
      simp [h]

end SvgEmbed

namespace SvgEmbed

/-- C5: the output file exists exactly when the source document parses;
per-asset soft failures never prevent the single final write. -/
theorem c5_output_iff_parse (env : Env) :
    (∃ out, mainRun env = some out)
      ↔ (∃ r, env.parseXml main_svg_path = ParseOutcome.ok r) := by
  rcases h : env.parseXml main_svg_path with _ | _ | r
  · simp [mainRun, h]
  · simp [mainRun, h]
  · simp [mainRun, h]

/-- C9: the refresher attempts every discovered pair in sequence, counts
exactly the successful fetches (failures are caught and excluded), and
reports that count out of the total number of pairs. -/
theorem c9_refresher_batch (w : World) (ms : List (String × String)) :
    refresherReport w ms
        = (ms.countP (fun m => fetch_and_save w m.1.trim m.2), ms.length)
      ∧ (refresherLoop w ms).2 = ms.map (fun m => m.1.trim)
      ∧ (refresherLoop w ms).1 ≤ ms.length := by
  have h := refresherLoop_general w ms 0 []
  refine ⟨?_, ?_, ?_⟩
  · simp only [refresherReport, refresherLoop, h]
    simp
  · simp only [refresherLoop, h]
    simp
  · simp only [refresherLoop, h]
    simp only [Nat.zero_add]
    exact List.countP_le_length _

/-- C10: a qualifying reference whose path ends in none of `.png`,
`.gif`, `.svg` falls through both branches: the document is unchanged
and only the generic processing line is printed, no warning. -/
theorem c10_unhandled_extension_skip (env : Env) (pm : Nat → Option Nat) (d : Elem)
    (k imgId : Nat) (n : Elem) (fp : String)
    (hn : getNodeById imgId d = some n)
    (hhref : getAttr n.attrs hrefAttr = some fp)
    (hq : strStartsWith fp assetsDirStr = true)
    (hpng : strEndsWith fp ".png" = false)
    (hgif : strEndsWith fp ".gif" = false)
    (hsvg : strEndsWith fp ".svg" = false) :
    processImageCore env pm d k imgId = ((d, k), ["Processing: " ++ fp]) := by
  simp [processImageCore, hn, hhref, hq, hpng, hgif, hsvg]

/-- Witness for C10 at a concrete input (`.jpg` asset). -/
theorem c10_unhandled_extension_skip_witness :
    processImageCore ⟨fun _ => none, fun _ => ParseOutcome.notFound⟩ (fun _ => none)
        (Elem.node 0 svgImageTag [(hrefAttr, "./assets/photo.jpg")] none ElemList.nil) 1 0
      = ((Elem.node 0 svgImageTag [(hrefAttr, "./assets/photo.jpg")] none ElemList.nil, 1),
         ["Processing: ./assets/photo.jpg"]) :=
  c10_unhandled_extension_skip _ _ _ _ _
    (Elem.node 0 svgImageTag [(hrefAttr, "./assets/photo.jpg")] none ElemList.nil)
    "./assets/photo.jpg"
    (by decide) (by decide) (by decide) (by decide) (by decide) (by decide)

end SvgEmbed

namespace SvgEmbed

/-- C4: every soft failure of a qualifying reference (unrecognized MIME
type or missing file in the raster branch; missing parent, non-`<g>`
parent, missing or unparsable asset in the vector branch) leaves the
document state exactly unchanged, so the loop continues on an untouched
tree. -/
theorem c4_soft_failure_identity (env : Env) (pm : Nat → Option Nat) (d : Elem)
    (k imgId : Nat) (n : Elem) (fp : String)
    (hn : getNodeById imgId d = some n)
    (hhref : getAttr n.attrs hrefAttr = some fp)
    (hq : strStartsWith fp assetsDirStr = true)
    (hsoft :
      ((strEndsWith fp ".png" || strEndsWith fp ".gif") = true
        ∧ (create_data_uri env fp).1 = none)
      ∨ ((strEndsWith fp ".png" || strEndsWith fp ".gif") = false
        ∧ strEndsWith fp ".svg" = true
        ∧ (pm imgId = none
          ∨ (∃ pid, pm imgId = some pid ∧ getNodeById pid d = none)
          ∨ (∃ pid pn, pm imgId = some pid ∧ getNodeById pid d = some pn ∧ pn.tag ≠ svgGTag)
          ∨ (∃ pid pn, pm imgId = some pid ∧ getNodeById pid d = some pn ∧ pn.tag = svgGTag
              ∧ (env.parseXml fp = ParseOutcome.notFound
                ∨ env.parseXml fp = ParseOutcome.parseError))))) :
    processImage env pm (d, k) imgId = (d, k) := by
  rcases hsoft with ⟨hext, hcd⟩ | ⟨hext, hsvg, hvec⟩
  · rcases hc : create_data_uri env fp with ⟨o, lg⟩
    rw [hc] at hcd
    simp only at hcd
    subst hcd
    simp [processImage, processImageCore, hn, hhref, hq, hext, hc]
  · rcases hvec with hpm | ⟨pid, hpm, hpn⟩ | ⟨pid, pn, hpm, hpn, htag⟩ | ⟨pid, pn, hpm, hpn, htag, hparse⟩
    · simp [processImage, processImageCore, hn, hhref, hq, hext, hsvg, hpm]
    · simp [processImage, processImageCore, hn, hhref, hq, hext, hsvg, hpm, hpn]
    · simp [processImage, processImageCore, hn, hhref, hq, hext, hsvg, hpm, hpn, htag]
    · rcases hparse with hp | hp
      · simp [processImage, processImageCore, hn, hhref, hq, hext, hsvg, hpm, hpn, htag, hp]
      · simp [processImage, processImageCore, hn, hhref, hq, hext, hsvg, hpm, hpn, htag, hp]

/-- Witness for C4 at a concrete input: a qualifying raster reference
whose asset file is missing. -/
theorem c4_soft_failure_identity_witness :
    processImage ⟨fun _ => none, fun _ => ParseOutcome.notFound⟩ (fun _ => none)
        (Elem.node 0 svgImageTag [(hrefAttr, "./assets/a.png")] none ElemList.nil, 5) 0
      = (Elem.node 0 svgImageTag [(hrefAttr, "./assets/a.png")] none ElemList.nil, 5) :=
  c4_soft_failure_identity _ _ _ _ _
    (Elem.node 0 svgImageTag [(hrefAttr, "./assets/a.png")] none ElemList.nil)
    "./assets/a.png" (by decide) (by decide) (by decide)
    (Or.inl ⟨by decide, by decide⟩)

/-- C1 (amended): qualification is decided by the textual prefix test
`startswith("./assets/")`, not by path containment: every image element
whose reference attribute is absent or does not start with `./assets/`
is skipped and left unmodified.  Sibling directories such as
`./assets2/x.png` do not start with the prefix (it includes the trailing
slash) and are skipped, but a reference that starts with `./assets/`
while escaping the directory, e.g. `./assets/../evil.png`, is treated as
a qualifying asset (see the counterexample). -/
theorem c1_amended_prefix_decides (env : Env) (pm : Nat → Option Nat) (d : Elem)
    (k imgId : Nat) (n : Elem)
    (hn : getNodeById imgId d = some n) (hq : hrefQualifies n = false) :
    processImage env pm (d, k) imgId = (d, k) := by
  simp [processImage, processImage_id_of_nonqual env pm d k imgId n hn hq]

/-- Witness for the amended C1 at a concrete input: a sibling directory
sharing the textual prefix `./assets`. -/
theorem c1_amended_prefix_decides_witness :
    processImage ⟨fun _ => some [1], fun _ => ParseOutcome.notFound⟩ (fun _ => none)
        (Elem.node 0 svgImageTag [(hrefAttr, "./assets2/a.png")] none ElemList.nil, 5) 0
      = (Elem.node 0 svgImageTag [(hrefAttr, "./assets2/a.png")] none ElemList.nil, 5) :=
  c1_amended_prefix_decides _ _ _ _ _
    (Elem.node 0 svgImageTag [(hrefAttr, "./assets2/a.png")] none ElemList.nil)
    (by decide) (by decide)

/-- Document for the C1 counterexample: one image whose reference
`./assets/../evil.png` textually starts with `./assets/` but denotes a
path outside the assets directory. -/
def docC1 : Elem :=
  Elem.node 0 "\x7bhttp://www.w3.org/2000/svg\x7dsvg" [] none
    (ElemList.cons
      (Elem.node 1 svgImageTag [(hrefAttr, "./assets/../evil.png")] none ElemList.nil)
      ElemList.nil)

/-- Environment for the C1 counterexample: the escaping path exists on
disk with content bytes `hi`. -/
def envC1 : Env :=
  ⟨fun p => if p = "./assets/../evil.png" then some [104, 105] else none,
   fun _ => ParseOutcome.notFound⟩

/-- C1 counterexample: the reference `./assets/../evil.png` starts with
the assets prefix but is not a descendant of the assets directory, yet
the embedder does NOT skip it: the element is rewritten to a data URI,
so qualification is decided by string prefix, not path containment. -/
theorem c1_containment_counterexample :
    strStartsWith "./assets/../evil.png" assetsDirStr = true
    ∧ viewAt 1 (runEmbed envC1 docC1)
        = some ⟨svgImageTag, [(hrefAttr, "data:image/png;base64,aGk=")], none, []⟩
    ∧ runEmbed envC1 docC1 ≠ docC1 :=
  ⟨by decide, by decide, by decide⟩

end SvgEmbed

namespace SvgEmbed

/-- C6: when no image element of the document carries a qualifying
assets-directory reference (e.g. the output of a fully successful
previous run, where references are data URIs or inlined markup), the
embedder is a no-op: the output tree is the input tree. -/
theorem c6_no_qualifying_noop (env : Env) (d : Elem)
    (hnd : IdsNodup d)
    (hq : ∀ n ∈ allNodes d, n.tag = svgImageTag → hrefQualifies n = false) :
    runEmbed env d = d := by
  unfold runEmbed embedLoop
  rw [foldl_fixed]
  · intro j hj
    rcases descImages_spec d j hj with ⟨m, hm, heid, htag⟩
    have hget : getNodeById j d = some m := heid ▸ mem_allNodes_getNodeById d hnd m hm
    simp [processImage, processImage_id_of_nonqual env _ d _ j m hget (hq m hm htag)]

/-- Witness document for C6: an already-embedded document (a data-URI
image and an inlined vector) with no qualifying reference left. -/
def docC6 : Elem :=
  Elem.node 0 "\x7bhttp://www.w3.org/2000/svg\x7dsvg" [] none
    (ElemList.cons
      (Elem.node 1 svgImageTag [(hrefAttr, "data:image/png;base64,aGk=")] none ElemList.nil)
      (ElemList.cons
        (Elem.node 2 svgGTag [("transform", "translate(0, 0)")] none
          (ElemList.cons (Elem.node 3 "svg" [] none ElemList.nil) ElemList.nil))
        ElemList.nil))

/-- Witness for C6 at a concrete already-embedded document. -/
theorem c6_no_qualifying_noop_witness :
    runEmbed ⟨fun _ => some [1], fun _ => ParseOutcome.notFound⟩ docC6 = docC6 :=
  c6_no_qualifying_noop _ _ (by unfold IdsNodup; decide) (by decide)

end SvgEmbed

namespace SvgEmbed

/-- Document for the C3 counterexample: a `<g>` container holding a
vector image reference with `x="5" y="7"`, a present but empty `width`
attribute, and `height="20"`. -/
def docC3 : Elem :=
  Elem.node 0 "\x7bhttp://www.w3.org/2000/svg\x7dsvg" [] none
    (ElemList.cons
      (Elem.node 1 svgGTag [] none
        (ElemList.cons
          (Elem.node 2 svgImageTag
            [(hrefAttr, "./assets/icon.svg"), ("x", "5"), ("y", "7"),
             ("width", ""), ("height", "20")]
            none ElemList.nil)
          ElemList.nil))
      ElemList.nil)

/-- Environment for the C3 counterexample: the vector asset parses to a
minimal SVG root. -/
def envC3 : Env :=
  ⟨fun _ => none,
   fun p => if p = "./assets/icon.svg"
     then ParseOutcome.ok (RawElem.node "\x7bhttp://www.w3.org/2000/svg\x7dsvg" [] none
       RawElemList.nil)
     else ParseOutcome.notFound⟩

/-- C3 counterexample: the image reference carries a present `width`
attribute (the empty string) and the inlining succeeds (the reference is
removed, the parent gets the transform, the asset root is appended), yet
the `width` attribute is NOT copied onto the asset's root element,
because the code tests Python truthiness (`if width:`), not presence. -/
theorem c3_width_truthiness_counterexample :
    (viewAt 2 docC3).map (fun v => getAttr v.attrs "width") = some (some "")
    ∧ getNodeById 2 (runEmbed envC3 docC3) = none
    ∧ viewAt 1 (runEmbed envC3 docC3)
        = some ⟨svgGTag, [("transform", "translate(5, 7)")], none, [3]⟩
    ∧ (viewAt 3 (runEmbed envC3 docC3)).map (fun v => getAttr v.attrs "width")
        = some none :=
  ⟨by decide, by decide, by decide, by decide⟩

/-- Document for the C7 counterexample: two vector image references
sharing the same `<g>` parent, with different `x` coordinates. -/
def docC7 : Elem :=
  Elem.node 0 "\x7bhttp://www.w3.org/2000/svg\x7dsvg" [] none
    (ElemList.cons
      (Elem.node 1 svgGTag [] none
        (ElemList.cons
          (Elem.node 2 svgImageTag [(hrefAttr, "./assets/a.svg"), ("x", "1")] none ElemList.nil)
          (ElemList.cons
            (Elem.node 3 svgImageTag [(hrefAttr, "./assets/b.svg"), ("x", "2")] none
              ElemList.nil)
            ElemList.nil)))
      ElemList.nil)

/-- Environment for the C7 counterexample: both vector assets parse. -/
def envC7 : Env :=
  ⟨fun _ => none,
   fun p =>
     if p = "./assets/a.svg" ∨ p = "./assets/b.svg"
     then ParseOutcome.ok (RawElem.node "\x7bhttp://www.w3.org/2000/svg\x7dsvg" [] none
       RawElemList.nil)
     else ParseOutcome.notFound⟩

/-- C7 counterexample: with two vector references inside the same parent
container, the parent's transform is whatever the last-processed
reference set, so the two processing orders of the same input yield
different output trees: the claim that the result is independent of the
processing order is false. -/
theorem c7_order_counterexample :
    descImages docC7 = [2, 3]
    ∧ (viewAt 1 (embedLoop envC7 (parentOf docC7) (docC7, 4) [2, 3]).1).map
        (fun v => getAttr v.attrs "transform") = some (some "translate(2, 0)")
    ∧ (viewAt 1 (embedLoop envC7 (parentOf docC7) (docC7, 4) [3, 2]).1).map
        (fun v => getAttr v.attrs "transform") = some (some "translate(1, 0)") :=
  ⟨by decide, by decide, by decide⟩

end SvgEmbed

namespace SvgEmbed

/-- The root identity is an identity of the tree. -/
theorem eid_mem_elemIds (e : Elem) : e.eid ∈ elemIds e := by
  cases e; simp [elemIds, Elem.eid]

/-- Child identities of an element are identities of its subtree. -/
theorem childIds_subset_elemIds (e : Elem) :
    ∀ x ∈ childIds e.children, x ∈ elemIds e := by
  cases e with
  | node j t a tx cs =>
    intro x hx
    simp only [Elem.children] at hx
    simp only [elemIds]
    exact List.mem_cons_of_mem _ (childIds_subset cs x hx)

/-- Dropping the first child of identity `c` removes `c` from the forest
identities, provided identities are distinct and `c` is a child. -/
theorem removeFirstChild_self_gone (c : Nat) :
    ∀ l : ElemList, (elemIdsL l).Nodup → c ∈ childIds l →
      c ∉ elemIdsL (removeFirstChild c l)
  | .nil => by intro _ h; simp [childIds] at h
  | .cons e es => by
    intro hnd hc
    simp only [elemIdsL] at hnd
    have hparts := List.nodup_append.mp hnd
    by_cases h : e.eid = c
    · simp only [removeFirstChild, if_pos h]
      intro h2
      exact hparts.2.2 (h ▸ eid_mem_elemIds e) h2
    · simp only [removeFirstChild, if_neg h, elemIdsL]
      have hc2 : c ∈ childIds es := by
        rcases List.mem_cons.mp hc with h3 | h3
        · exact absurd h3.symm h
        · exact h3
      intro h2
      rcases List.mem_append.mp h2 with h3 | h3
      · exact hparts.2.2 h3 (childIds_subset es c hc2)
      · exact removeFirstChild_self_gone c es hparts.2.1 hc2 h3

mutual
/-- Removing a child from its parent removes that child's identity from
the tree, when identities are distinct. -/
theorem removeChildById_self_gone (p c : Nat) :
    ∀ e : Elem, (elemIds e).Nodup → ∀ pn, getNodeById p e = some pn →
      c ∈ childIds pn.children → c ∉ elemIds (removeChildById p c e)
  | .node j t a tx cs => by
    intro hnd pn hp hc
    simp only [elemIds] at hnd
    have hparts := List.nodup_cons.mp hnd
    simp only [getNodeById] at hp
    by_cases hj : j = p
    · rw [if_pos hj] at hp
      cases hp
      simp only [Elem.children] at hc
      have hcj : c ≠ j := by
        intro h2
        exact hparts.1 (h2 ▸ childIds_subset cs c hc)
      simp only [removeChildById, if_pos hj, elemIds]
      intro h2
      rcases List.mem_cons.mp h2 with h3 | h3
      · exact hcj h3
      · have hnd2 : (elemIdsL (removeChildByIdL p c cs)).Nodup :=
          (elemIdsL_removeChildByIdL_sublist p c cs).nodup hparts.2
        have hc2 : c ∈ childIds (removeChildByIdL p c cs) := by
          rw [childIds_removeChildByIdL]; exact hc
        exact removeFirstChild_self_gone c _ hnd2 hc2 h3
    · rw [if_neg hj] at hp
      have hcin : c ∈ elemIdsL cs := by
        have h2 : c ∈ elemIds pn := childIds_subset_elemIds pn c hc
        exact getNodeByIdL_subset p cs pn hp c h2
      have hcj : c ≠ j := fun h2 => hparts.1 (h2 ▸ hcin)
      simp only [removeChildById, if_neg hj, elemIds]
      intro h2
      rcases List.mem_cons.mp h2 with h3 | h3
      · exact hcj h3
      · exact removeChildByIdL_self_gone p c cs hparts.2 pn hp hc h3
/-- Sibling-list version of `removeChildById_self_gone`. -/
theorem removeChildByIdL_self_gone (p c : Nat) :
    ∀ l : ElemList, (elemIdsL l).Nodup → ∀ pn, getNodeByIdL p l = some pn →
      c ∈ childIds pn.children → c ∉ elemIdsL (removeChildByIdL p c l)
  | .nil => by intro _ pn hp; simp [getNodeByIdL] at hp
  | .cons e es => by
    intro hnd pn hp hc
    simp only [elemIdsL] at hnd
    have hparts := List.nodup_append.mp hnd
    simp only [getNodeByIdL] at hp
    simp only [removeChildByIdL, elemIdsL]
    rcases h : getNodeById p e with _ | pn2
    · rw [h] at hp
      have hcin : c ∈ elemIdsL es := by
        have h2 : c ∈ elemIds pn := childIds_subset_elemIds pn c hc
        exact getNodeByIdL_subset p es pn hp c h2
      intro h2
      rcases List.mem_append.mp h2 with h3 | h3
      · exact hparts.2.2 ((elemIds_removeChildById_sublist p c e).mem h3) hcin
      · exact removeChildByIdL_self_gone p c es hparts.2.1 pn hp hc h3
    · rw [h] at hp
      cases hp
      have hcin : c ∈ elemIds e := by
        have h2 : c ∈ elemIds pn := childIds_subset_elemIds pn c hc
        exact getNodeById_subset p e pn h c h2
      intro h2
      rcases List.mem_append.mp h2 with h3 | h3
      · exact removeChildById_self_gone p c e hparts.1 pn h hc h3
      · exact hparts.2.2 hcin ((elemIdsL_removeChildByIdL_sublist p c es).mem h3)
end

end SvgEmbed

namespace SvgEmbed

mutual
/-- Attribute update keeps all identities. -/
theorem elemIds_setAttrById (i : Nat) (k v : String) :
    ∀ e : Elem, elemIds (setAttrById i k v e) = elemIds e
  | .node j t a tx cs => by
    simp [setAttrById, elemIds, elemIds_setAttrByIdL i k v cs]
/-- Sibling-list version of `elemIds_setAttrById`. -/
theorem elemIds_setAttrByIdL (i : Nat) (k v : String) :
    ∀ l : ElemList, elemIdsL (setAttrByIdL i k v l) = elemIdsL l
  | .nil => rfl
  | .cons e es => by
    simp [setAttrByIdL, elemIdsL, elemIds_setAttrById i k v e, elemIds_setAttrByIdL i k v es]
end

/-- Tag component of a view. -/
theorem view_tag (e : Elem) : e.view.tag = e.tag := by
  cases e; simp [Elem.view, Elem.tag]

/-- Attribute component of a view. -/
theorem view_attrs (e : Elem) : e.view.attrs = e.attrs := by
  cases e; simp [Elem.view, Elem.attrs]

/-- Text component of a view. -/
theorem view_text (e : Elem) : e.view.text = e.text := by
  cases e; simp [Elem.view, Elem.text]

/-- Child-identity component of a view. -/
theorem view_childIds (e : Elem) : e.view.childIds = childIds e.children := by
  cases e; simp [Elem.view, Elem.children]

/-- A successful identity search means the identity occurs in the tree. -/
theorem mem_of_getNodeById_some {i : Nat} {d n : Elem} (h : getNodeById i d = some n) :
    i ∈ elemIds d := by
  by_contra h2
  rw [(getNodeById_none_iff i d).mpr h2] at h
  exact Option.noConfusion h

/-- Attribute update keeps the child identities of any element. -/
theorem childIds_children_setAttrById (i : Nat) (k v : String) (e : Elem) :
    childIds (setAttrById i k v e).children = childIds e.children := by
  cases e with
  | node j t a tx cs => simp [setAttrById, Elem.children, childIds_setAttrByIdL]

/-- Effect of the successful vector-branch mutation sequence (set the
parent transform, remove the image child, append the asset root) on the
image element, on its parent, and on the asset root. -/
theorem vectorStepEffect (d : Elem) (pid imgId k : Nat) (pn img a3 : Elem) (tr : String)
    (hnd : (elemIds d).Nodup)
    (hbound : ∀ x ∈ elemIds d, x < k)
    (hn : getNodeById imgId d = some img)
    (hpn : getNodeById pid d = some pn)
    (hchild : imgId ∈ childIds pn.children)
    (hpi : pid ∉ elemIds img)
    (ha3e : a3.eid = k)
    (ha3 : ∀ x ∈ elemIds a3, k ≤ x) :
    getNodeById imgId
        (appendChildById pid a3 (removeChildById pid imgId (setAttrById pid "transform" tr d)))
      = none
    ∧ viewAt pid
        (appendChildById pid a3 (removeChildById pid imgId (setAttrById pid "transform" tr d)))
      = some ⟨pn.tag, setAttr pn.attrs "transform" tr, pn.text,
          (childIds pn.children).erase imgId ++ [k]⟩
    ∧ getNodeById k
        (appendChildById pid a3 (removeChildById pid imgId (setAttrById pid "transform" tr d)))
      = some a3 := by
  have hpid_eq : pn.eid = pid := getNodeById_eid pid d pn hpn
  have himg_mem : imgId ∈ elemIds d := mem_of_getNodeById_some hn
  have hpid_mem : pid ∈ elemIds d := mem_of_getNodeById_some hpn
  have hids1 : elemIds (setAttrById pid "transform" tr d) = elemIds d :=
    elemIds_setAttrById pid "transform" tr d
  have hnd1 : (elemIds (setAttrById pid "transform" tr d)).Nodup := by rw [hids1]; exact hnd
  have hget1_img : getNodeById imgId (setAttrById pid "transform" tr d)
      = some (setAttrById pid "transform" tr img) := by
    rw [getNodeById_setAttrById, hn]
    rfl
  have hget1_pn : getNodeById pid (setAttrById pid "transform" tr d)
      = some (setAttrById pid "transform" tr pn) := by
    rw [getNodeById_setAttrById, hpn]
    rfl
  have hout : ∀ m, getNodeById imgId (setAttrById pid "transform" tr d) = some m →
      pid ∉ elemIds m := by
    intro m hm
    rw [hget1_img] at hm
    cases hm
    rw [elemIds_setAttrById]
    exact hpi
  have hget2_pn : getNodeById pid
      (removeChildById pid imgId (setAttrById pid "transform" tr d))
      = some (removeChildById pid imgId (setAttrById pid "transform" tr pn)) := by
    rw [getNodeById_removeChildById pid pid imgId _ hnd1 hout, hget1_pn]
    rfl
  have hgone2 : imgId ∉ elemIds
      (removeChildById pid imgId (setAttrById pid "transform" tr d)) := by
    apply removeChildById_self_gone pid imgId _ hnd1 _ hget1_pn
    rw [childIds_children_setAttrById]
    exact hchild
  have hsub2 : ∀ x ∈ elemIds (removeChildById pid imgId (setAttrById pid "transform" tr d)),
      x ∈ elemIds d := by
    intro x hx
    rw [← hids1]
    exact (elemIds_removeChildById_sublist pid imgId _).mem hx
  have himg_not_a3 : imgId ∉ elemIds a3 := by
    intro h2
    exact absurd (hbound imgId himg_mem) (not_lt.mpr (ha3 imgId h2))
  have hpid_not_a3 : pid ∉ elemIds a3 := by
    intro h2
    exact absurd (hbound pid hpid_mem) (not_lt.mpr (ha3 pid h2))
  refine ⟨?_, ?_, ?_⟩
  · rw [getNodeById_appendChildById imgId pid a3 _ himg_not_a3]
    rw [(getNodeById_none_iff imgId _).mpr hgone2]
    rfl
  · rw [viewAt, getNodeById_appendChildById pid pid a3 _ hpid_not_a3, hget2_pn]
    simp only [Option.map_some']
    have hYeid : (setAttrById pid "transform" tr pn).eid = pid := by
      rw [eid_setAttrById, hpid_eq]
    have hXeid : (removeChildById pid imgId (setAttrById pid "transform" tr pn)).eid = pid := by
      rw [eid_removeChildById, hYeid]
    rw [view_appendChildById, if_pos hXeid, view_removeChildById, if_pos hYeid,
      view_setAttrById, if_pos hpid_eq]
    simp [view_tag, view_attrs, view_text, view_childIds, ha3e]
  · have ha3d2 : a3.eid
        ∉ elemIds (removeChildById pid imgId (setAttrById pid "transform" tr d)) := by
      rw [ha3e]
      intro h2
      exact absurd (hbound k (hsub2 k h2)) (lt_irrefl k)
    rw [← ha3e, getNodeById_appendChildById_self pid a3 _ ha3d2, if_pos]
    exact mem_of_getNodeById_some hget2_pn

/-- Root identity of the width/height copying step of the vector branch. -/
theorem eid_whAdjust (o : Option String) (key : String) (b : Elem) :
    (match o with
      | some w => if w = "" then b else setRootAttr b key w
      | none => b).eid = b.eid := by
  rcases o with _ | w
  · rfl
  · by_cases hw : w = "" <;> simp [hw, eid_setRootAttr]

/-- Identities of the width/height copying step of the vector branch. -/
theorem elemIds_whAdjust (o : Option String) (key : String) (b : Elem) :
    elemIds (match o with
      | some w => if w = "" then b else setRootAttr b key w
      | none => b) = elemIds b := by
  rcases o with _ | w
  · rfl
  · by_cases hw : w = "" <;> simp [hw, elemIds_setRootAttr]

/-- The width/height copying step does not touch other attributes. -/
theorem getAttr_whAdjust_ne (o : Option String) (key key2 : String) (b : Elem)
    (hne : key2 ≠ key) :
    getAttr (match o with
      | some w => if w = "" then b else setRootAttr b key w
      | none => b).attrs key2 = getAttr b.attrs key2 := by
  rcases o with _ | w
  · rfl
  · by_cases hw : w = ""
    · simp [hw]
    · simp [hw, attrs_setRootAttr, getAttr_setAttr_ne _ _ _ _ hne]

/-- The width/height copying step copies a present non-empty value. -/
theorem getAttr_whAdjust_self (o : Option String) (key : String) (b : Elem)
    (w : String) (ho : o = some w) (hw : w ≠ "") :
    getAttr (match o with
      | some w2 => if w2 = "" then b else setRootAttr b key w2
      | none => b).attrs key = some w := by
  subst ho
  simp [hw, attrs_setRootAttr, getAttr_setAttr_self]

/-- C3 (amended): when the embedder processes a vector Image Reference
whose asset parses and whose parent is a `<g>` containing it, the tree
after that iteration no longer contains the reference; the parent's
transform attribute is set to `translate(x, y)` with `x`/`y` from the
reference defaulting to `"0"`; the parent's child list is the old list
with the reference erased and the asset's root (carrying the fresh
identity `k`) appended at the end; and the reference's `width`/`height`
attributes are copied onto the asset's root only when present AND
non-empty (Python truthiness; an empty-string value is not copied, see
the counterexample). -/
theorem c3_amended_vector_inline (env : Env) (pm : Nat → Option Nat) (d : Elem)
    (k imgId pid : Nat) (img pn : Elem) (fp : String) (raw : RawElem)
    (hnd : IdsNodup d)
    (hbound : ∀ x ∈ elemIds d, x < k)
    (hn : getNodeById imgId d = some img)
    (hhref : getAttr img.attrs hrefAttr = some fp)
    (hq : strStartsWith fp assetsDirStr = true)
    (hpng : strEndsWith fp ".png" = false)
    (hgif : strEndsWith fp ".gif" = false)
    (hsvg : strEndsWith fp ".svg" = true)
    (hpm : pm imgId = some pid)
    (hpn : getNodeById pid d = some pn)
    (htag : pn.tag = svgGTag)
    (hchild : imgId ∈ childIds pn.children)
    (hpi : pid ∉ elemIds img)
    (hparse : env.parseXml fp = ParseOutcome.ok raw) :
    getNodeById imgId (processImage env pm (d, k) imgId).1 = none
    ∧ viewAt pid (processImage env pm (d, k) imgId).1
        = some ⟨pn.tag,
            setAttr pn.attrs "transform"
              ("translate(" ++ (getAttr img.attrs "x").getD "0" ++ ", "
                ++ (getAttr img.attrs "y").getD "0" ++ ")"),
            pn.text,
            (childIds pn.children).erase imgId ++ [k]⟩
    ∧ ∃ ar, getNodeById k (processImage env pm (d, k) imgId).1 = some ar
        ∧ ar.eid = k
        ∧ (∀ w, getAttr img.attrs "width" = some w → w ≠ "" →
            getAttr ar.attrs "width" = some w)
        ∧ (∀ hv, getAttr img.attrs "height" = some hv → hv ≠ "" →
            getAttr ar.attrs "height" = some hv) := by
  have hred : (processImage env pm (d, k) imgId).1
      = appendChildById pid
          (match getAttr img.attrs "height" with
            | some hv => if hv = ""
                then (match getAttr img.attrs "width" with
                  | some w => if w = "" then stripNS (assignIds k raw).1
                      else setRootAttr (stripNS (assignIds k raw).1) "width" w
                  | none => stripNS (assignIds k raw).1)
                else setRootAttr
                  (match getAttr img.attrs "width" with
                    | some w => if w = "" then stripNS (assignIds k raw).1
                        else setRootAttr (stripNS (assignIds k raw).1) "width" w
                    | none => stripNS (assignIds k raw).1) "height" hv
            | none => (match getAttr img.attrs "width" with
                | some w => if w = "" then stripNS (assignIds k raw).1
                    else setRootAttr (stripNS (assignIds k raw).1) "width" w
                | none => stripNS (assignIds k raw).1))
          (removeChildById pid imgId
            (setAttrById pid "transform"
              ("translate(" ++ (getAttr img.attrs "x").getD "0" ++ ", "
                ++ (getAttr img.attrs "y").getD "0" ++ ")") d)) := by
    simp [processImage, processImageCore, hn, hhref, hq, hpng, hgif, hsvg, hpm, hpn,
      htag, hparse]
  have hA2eid : (match getAttr img.attrs "width" with
      | some w => if w = "" then stripNS (assignIds k raw).1
          else setRootAttr (stripNS (assignIds k raw).1) "width" w
      | none => stripNS (assignIds k raw).1).eid = k := by
    rw [eid_whAdjust, eid_stripNS, assignIds_eid]
  have hA2ids : elemIds (match getAttr img.attrs "width" with
      | some w => if w = "" then stripNS (assignIds k raw).1
          else setRootAttr (stripNS (assignIds k raw).1) "width" w
      | none => stripNS (assignIds k raw).1) = elemIds (assignIds k raw).1 := by
    rw [elemIds_whAdjust, elemIds_stripNS]
  have hA3eid : (match getAttr img.attrs "height" with
      | some hv => if hv = ""
          then (match getAttr img.attrs "width" with
            | some w => if w = "" then stripNS (assignIds k raw).1
                else setRootAttr (stripNS (assignIds k raw).1) "width" w
            | none => stripNS (assignIds k raw).1)
          else setRootAttr
            (match getAttr img.attrs "width" with
              | some w => if w = "" then stripNS (assignIds k raw).1
                  else setRootAttr (stripNS (assignIds k raw).1) "width" w
              | none => stripNS (assignIds k raw).1) "height" hv
      | none => (match getAttr img.attrs "width" with
          | some w => if w = "" then stripNS (assignIds k raw).1
              else setRootAttr (stripNS (assignIds k raw).1) "width" w
          | none => stripNS (assignIds k raw).1)).eid = k := by
    rw [eid_whAdjust]
    exact hA2eid
  have hA3ids : elemIds (match getAttr img.attrs "height" with
      | some hv => if hv = ""
          then (match getAttr img.attrs "width" with
            | some w => if w = "" then stripNS (assignIds k raw).1
                else setRootAttr (stripNS (assignIds k raw).1) "width" w
            | none => stripNS (assignIds k raw).1)
          else setRootAttr
            (match getAttr img.attrs "width" with
              | some w => if w = "" then stripNS (assignIds k raw).1
                  else setRootAttr (stripNS (assignIds k raw).1) "width" w
              | none => stripNS (assignIds k raw).1) "height" hv
      | none => (match getAttr img.attrs "width" with
          | some w => if w = "" then stripNS (assignIds k raw).1
              else setRootAttr (stripNS (assignIds k raw).1) "width" w
          | none => stripNS (assignIds k raw).1)) = elemIds (assignIds k raw).1 := by
    rw [elemIds_whAdjust]
    exact hA2ids
  have hA3bound : ∀ x ∈ elemIds (match getAttr img.attrs "height" with
      | some hv => if hv = ""
          then (match getAttr img.attrs "width" with
            | some w => if w = "" then stripNS (assignIds k raw).1
                else setRootAttr (stripNS (assignIds k raw).1) "width" w
            | none => stripNS (assignIds k raw).1)
          else setRootAttr
            (match getAttr img.attrs "width" with
              | some w => if w = "" then stripNS (assignIds k raw).1
                  else setRootAttr (stripNS (assignIds k raw).1) "width" w
              | none => stripNS (assignIds k raw).1) "height" hv
      | none => (match getAttr img.attrs "width" with
          | some w => if w = "" then stripNS (assignIds k raw).1
              else setRootAttr (stripNS (assignIds k raw).1) "width" w
          | none => stripNS (assignIds k raw).1)), k ≤ x := by
    intro x hx
    rw [hA3ids] at hx
    exact ((assignIds_spec raw k).2.1 x hx).1
  have hmain := vectorStepEffect d pid imgId k pn img _
    ("translate(" ++ (getAttr img.attrs "x").getD "0" ++ ", "
      ++ (getAttr img.attrs "y").getD "0" ++ ")")
    hnd hbound hn hpn hchild hpi hA3eid hA3bound
  refine ⟨?_, ?_, ?_⟩
  · rw [hred]
    exact hmain.1
  · rw [hred]
    exact hmain.2.1
  · refine ⟨_, ?_, hA3eid, ?_, ?_⟩
    · rw [hred]
      exact hmain.2.2
    · intro w hw hwne
      rw [getAttr_whAdjust_ne _ _ _ _ (by decide)]
      exact getAttr_whAdjust_self _ _ _ w hw hwne
    · intro hv hh hhne
      exact getAttr_whAdjust_self _ _ _ hv hh hhne
end SvgEmbed

namespace SvgEmbed

/-- The image element of the C3 witness document. -/
def imgC3 : Elem :=
  Elem.node 2 svgImageTag
    [(hrefAttr, "./assets/icon.svg"), ("x", "5"), ("y", "7"), ("width", ""), ("height", "20")]
    none ElemList.nil

/-- The parent container of the C3 witness document. -/
def pnC3 : Elem := Elem.node 1 svgGTag [] none (ElemList.cons imgC3 ElemList.nil)

/-- Witness for the amended C3 at the concrete document `docC3`. -/
theorem c3_amended_vector_inline_witness :
    getNodeById 2 (processImage envC3 (parentOf docC3) (docC3, 3) 2).1 = none
    ∧ viewAt 1 (processImage envC3 (parentOf docC3) (docC3, 3) 2).1
        = some ⟨pnC3.tag,
            setAttr pnC3.attrs "transform"
              ("translate(" ++ (getAttr imgC3.attrs "x").getD "0" ++ ", "
                ++ (getAttr imgC3.attrs "y").getD "0" ++ ")"),
            pnC3.text,
            (childIds pnC3.children).erase 2 ++ [3]⟩
    ∧ ∃ ar, getNodeById 3 (processImage envC3 (parentOf docC3) (docC3, 3) 2).1 = some ar
        ∧ ar.eid = 3
        ∧ (∀ w, getAttr imgC3.attrs "width" = some w → w ≠ "" →
            getAttr ar.attrs "width" = some w)
        ∧ (∀ hv, getAttr imgC3.attrs "height" = some hv → hv ≠ "" →
            getAttr ar.attrs "height" = some hv) :=
  c3_amended_vector_inline envC3 (parentOf docC3) docC3 3 2 1 imgC3 pnC3
    "./assets/icon.svg"
    (RawElem.node "\x7bhttp://www.w3.org/2000/svg\x7dsvg" [] none RawElemList.nil)
    (by unfold IdsNodup; decide) (by decide) (by decide) (by decide) (by decide)
    (by decide) (by decide) (by decide) (by decide) (by decide) (by decide)
    (by decide) (by decide) rfl

end SvgEmbed

namespace SvgEmbed

/-- Attribute update keeps the tag. -/
theorem tag_setAttrById (i : Nat) (k v : String) (e : Elem) :
    (setAttrById i k v e).tag = e.tag := by
  cases e; simp [setAttrById, Elem.tag]

/-- Child removal keeps the tag. -/
theorem tag_removeChildById (p c : Nat) (e : Elem) :
    (removeChildById p c e).tag = e.tag := by
  cases e; simp [removeChildById, Elem.tag]

/-- Child appending keeps the tag. -/
theorem tag_appendChildById (p : Nat) (nc : Elem) (e : Elem) :
    (appendChildById p nc e).tag = e.tag := by
  cases e; simp [appendChildById, Elem.tag]

/-- Child removal keeps the attributes. -/
theorem attrs_removeChildById (p c : Nat) (e : Elem) :
    (removeChildById p c e).attrs = e.attrs := by
  cases e; simp [removeChildById, Elem.attrs]

/-- Child appending keeps the attributes. -/
theorem attrs_appendChildById (p : Nat) (nc : Elem) (e : Elem) :
    (appendChildById p nc e).attrs = e.attrs := by
  cases e; simp [appendChildById, Elem.attrs]

/-- Attribute update on the root element updates its dictionary. -/
theorem attrs_setAttrById_self (i : Nat) (k v : String) (e : Elem) (h : e.eid = i) :
    (setAttrById i k v e).attrs = setAttr e.attrs k v := by
  cases e with
  | node j t a tx cs =>
    simp only [Elem.eid] at h
    simp [setAttrById, h, Elem.attrs]

/-- Attribute update elsewhere keeps the dictionary of the root. -/
theorem attrs_setAttrById_ne (i : Nat) (k v : String) (e : Elem) (h : e.eid ≠ i) :
    (setAttrById i k v e).attrs = e.attrs := by
  cases e with
  | node j t a tx cs =>
    simp only [Elem.eid] at h
    simp [setAttrById, h, Elem.attrs]

/-- Child removal on the root erases the child from the child list. -/
theorem childIds_children_removeChildById_self (p c : Nat) (e : Elem) (h : e.eid = p) :
    childIds (removeChildById p c e).children = (childIds e.children).erase c := by
  cases e with
  | node j t a tx cs =>
    simp only [Elem.eid] at h
    simp [removeChildById, h, Elem.children, childIds_removeFirstChild,
      childIds_removeChildByIdL]

/-- Child appending on the root appends the child's identity. -/
theorem childIds_children_appendChildById_self (p : Nat) (nc : Elem) (e : Elem)
    (h : e.eid = p) :
    childIds (appendChildById p nc e).children = childIds e.children ++ [nc.eid] := by
  cases e with
  | node j t a tx cs =>
    simp only [Elem.eid] at h
    simp [appendChildById, h, Elem.children, childIds_append, childIds_appendChildByIdL,
      childIds]

/-- Reduction of one loop iteration in the successful vector branch. -/
theorem processImage_vector_red (env : Env) (pm : Nat → Option Nat) (d : Elem)
    (k imgId pid : Nat) (img pn : Elem) (fp : String) (raw : RawElem)
    (hn : getNodeById imgId d = some img)
    (hhref : getAttr img.attrs hrefAttr = some fp)
    (hq : strStartsWith fp assetsDirStr = true)
    (hpng : strEndsWith fp ".png" = false)
    (hgif : strEndsWith fp ".gif" = false)
    (hsvg : strEndsWith fp ".svg" = true)
    (hpm : pm imgId = some pid)
    (hpn : getNodeById pid d = some pn)
    (htag : pn.tag = svgGTag)
    (hparse : env.parseXml fp = ParseOutcome.ok raw) :
    processImage env pm (d, k) imgId
      = (appendChildById pid
          (match getAttr img.attrs "height" with
            | some hv => if hv = ""
                then (match getAttr img.attrs "width" with
                  | some w => if w = "" then stripNS (assignIds k raw).1
                      else setRootAttr (stripNS (assignIds k raw).1) "width" w
                  | none => stripNS (assignIds k raw).1)
                else setRootAttr
                  (match getAttr img.attrs "width" with
                    | some w => if w = "" then stripNS (assignIds k raw).1
                        else setRootAttr (stripNS (assignIds k raw).1) "width" w
                    | none => stripNS (assignIds k raw).1) "height" hv
            | none => (match getAttr img.attrs "width" with
                | some w => if w = "" then stripNS (assignIds k raw).1
                    else setRootAttr (stripNS (assignIds k raw).1) "width" w
                | none => stripNS (assignIds k raw).1))
          (removeChildById pid imgId
            (setAttrById pid "transform"
              ("translate(" ++ (getAttr img.attrs "x").getD "0" ++ ", "
                ++ (getAttr img.attrs "y").getD "0" ++ ")") d)),
         (assignIds k raw).2) := by
  simp [processImage, processImageCore, hn, hhref, hq, hpng, hgif, hsvg, hpm, hpn,
    htag, hparse]

end SvgEmbed

namespace SvgEmbed

/-- First projection of a literal state pair. -/
theorem fst_mk (a : Elem) (b : Nat) : ((a, b) : Elem × Nat).1 = a := rfl

/-- C7 (amended): the output does depend on the processing order when two
vector Image References share the same parent container: the parent's
transform attribute is overwritten once per inlined reference, so after
processing the two references the transform equals `translate(x, y)` of
the LAST-processed reference; processing them in opposite orders
therefore yields different outputs whenever their coordinates differ
(see the counterexample). -/
theorem c7_amended_last_wins (env : Env) (pm : Nat → Option Nat) (d : Elem)
    (k i j p : Nat) (ni nj pn : Elem) (fpi fpj : String) (rawi rawj : RawElem)
    (hnd : IdsNodup d)
    (hbound : ∀ x ∈ elemIds d, x < k)
    (hij : i ≠ j)
    (hni : getNodeById i d = some ni) (hnj : getNodeById j d = some nj)
    (hhrefi : getAttr ni.attrs hrefAttr = some fpi)
    (hqi : strStartsWith fpi assetsDirStr = true)
    (hpngi : strEndsWith fpi ".png" = false)
    (hgifi : strEndsWith fpi ".gif" = false)
    (hsvgi : strEndsWith fpi ".svg" = true)
    (hhrefj : getAttr nj.attrs hrefAttr = some fpj)
    (hqj : strStartsWith fpj assetsDirStr = true)
    (hpngj : strEndsWith fpj ".png" = false)
    (hgifj : strEndsWith fpj ".gif" = false)
    (hsvgj : strEndsWith fpj ".svg" = true)
    (hpmi : pm i = some p) (hpmj : pm j = some p)
    (hpn : getNodeById p d = some pn)
    (htag : pn.tag = svgGTag)
    (hchildj : j ∈ childIds pn.children)
    (hpi : p ∉ elemIds ni) (hpj : p ∉ elemIds nj)
    (hdisjij : j ∉ elemIds ni) (hdisjji : i ∉ elemIds nj)
    (hparsei : env.parseXml fpi = ParseOutcome.ok rawi)
    (hparsej : env.parseXml fpj = ParseOutcome.ok rawj) :
    (viewAt p (embedLoop env pm (d, k) [i, j]).1).map (fun v => getAttr v.attrs "transform")
      = some (some ("translate(" ++ (getAttr nj.attrs "x").getD "0" ++ ", "
          ++ (getAttr nj.attrs "y").getD "0" ++ ")")) := by
  have hspec_i := assignIds_spec rawi k
  have hstep1 : embedLoop env pm (d, k) [i, j]
      = processImage env pm (processImage env pm (d, k) i) j := by
    simp [embedLoop, List.foldl]
  rw [hstep1,
    processImage_vector_red env pm d k i p ni pn fpi rawi hni hhrefi hqi hpngi hgifi
      hsvgi hpmi hpn htag hparsei]
  have hA3i_eid : (match getAttr ni.attrs "height" with
      | some hv => if hv = ""
          then (match getAttr ni.attrs "width" with
            | some w => if w = "" then stripNS (assignIds k rawi).1
                else setRootAttr (stripNS (assignIds k rawi).1) "width" w
            | none => stripNS (assignIds k rawi).1)
          else setRootAttr
            (match getAttr ni.attrs "width" with
              | some w => if w = "" then stripNS (assignIds k rawi).1
                  else setRootAttr (stripNS (assignIds k rawi).1) "width" w
              | none => stripNS (assignIds k rawi).1) "height" hv
      | none => (match getAttr ni.attrs "width" with
          | some w => if w = "" then stripNS (assignIds k rawi).1
              else setRootAttr (stripNS (assignIds k rawi).1) "width" w
          | none => stripNS (assignIds k rawi).1)).eid = k := by
    rw [eid_whAdjust, eid_whAdjust, eid_stripNS, assignIds_eid]
  have hA3i_ids : elemIds (match getAttr ni.attrs "height" with
      | some hv => if hv = ""
          then (match getAttr ni.attrs "width" with
            | some w => if w = "" then stripNS (assignIds k rawi).1
                else setRootAttr (stripNS (assignIds k rawi).1) "width" w
            | none => stripNS (assignIds k rawi).1)
          else setRootAttr
            (match getAttr ni.attrs "width" with
              | some w => if w = "" then stripNS (assignIds k rawi).1
                  else setRootAttr (stripNS (assignIds k rawi).1) "width" w
              | none => stripNS (assignIds k rawi).1) "height" hv
      | none => (match getAttr ni.attrs "width" with
          | some w => if w = "" then stripNS (assignIds k rawi).1
              else setRootAttr (stripNS (assignIds k rawi).1) "width" w
          | none => stripNS (assignIds k rawi).1)) = elemIds (assignIds k rawi).1 := by
    rw [elemIds_whAdjust, elemIds_whAdjust, elemIds_stripNS]
  generalize hA3i : (match getAttr ni.attrs "height" with
      | some hv => if hv = ""
          then (match getAttr ni.attrs "width" with
            | some w => if w = "" then stripNS (assignIds k rawi).1
                else setRootAttr (stripNS (assignIds k rawi).1) "width" w
            | none => stripNS (assignIds k rawi).1)
          else setRootAttr
            (match getAttr ni.attrs "width" with
              | some w => if w = "" then stripNS (assignIds k rawi).1
                  else setRootAttr (stripNS (assignIds k rawi).1) "width" w
              | none => stripNS (assignIds k rawi).1) "height" hv
      | none => (match getAttr ni.attrs "width" with
          | some w => if w = "" then stripNS (assignIds k rawi).1
              else setRootAttr (stripNS (assignIds k rawi).1) "width" w
          | none => stripNS (assignIds k rawi).1)) = A3i at hA3i_eid hA3i_ids ⊢
  have hA3i_bound : ∀ x ∈ elemIds A3i, k ≤ x ∧ x < (assignIds k rawi).2 := by
    intro x hx
    rw [hA3i_ids] at hx
    exact hspec_i.2.1 x hx
  have hA3i_nodup : (elemIds A3i).Nodup := by
    rw [hA3i_ids]
    exact hspec_i.2.2
  have hinner_sub : ∀ x ∈ elemIds (removeChildById p i
      (setAttrById p "transform"
        ("translate(" ++ (getAttr ni.attrs "x").getD "0" ++ ", "
          ++ (getAttr ni.attrs "y").getD "0" ++ ")") d)), x ∈ elemIds d := by
    intro x hx
    have h2 := (elemIds_removeChildById_sublist p i _).mem hx
    rw [elemIds_setAttrById] at h2
    exact h2
  have hnd_set : (elemIds (setAttrById p "transform"
      ("translate(" ++ (getAttr ni.attrs "x").getD "0" ++ ", "
        ++ (getAttr ni.attrs "y").getD "0" ++ ")") d)).Nodup := by
    rw [elemIds_setAttrById]
    exact hnd
  have hnd_inner : (elemIds (removeChildById p i
      (setAttrById p "transform"
        ("translate(" ++ (getAttr ni.attrs "x").getD "0" ++ ", "
          ++ (getAttr ni.attrs "y").getD "0" ++ ")") d))).Nodup :=
    (elemIds_removeChildById_sublist p i _).nodup hnd_set
  have hnd1 : (elemIds (appendChildById p A3i (removeChildById p i
      (setAttrById p "transform"
        ("translate(" ++ (getAttr ni.attrs "x").getD "0" ++ ", "
          ++ (getAttr ni.attrs "y").getD "0" ++ ")") d)))).Nodup := by
    apply nodup_appendChildById p A3i _ hnd_inner hA3i_nodup
    intro x hx hx2
    exact absurd (hbound x (hinner_sub x hx2)) (not_lt.mpr (hA3i_bound x hx).1)
  have hbound1 : ∀ x ∈ elemIds (appendChildById p A3i (removeChildById p i
      (setAttrById p "transform"
        ("translate(" ++ (getAttr ni.attrs "x").getD "0" ++ ", "
          ++ (getAttr ni.attrs "y").getD "0" ++ ")") d))), x < (assignIds k rawi).2 := by
    intro x hx
    rcases elemIds_appendChildById_subset p A3i _ x hx with h2 | h2
    · exact lt_trans (hbound x (hinner_sub x h2)) hspec_i.1
    · exact (hA3i_bound x h2).2
  have hjk : j < k := hbound j (mem_of_getNodeById_some hnj)
  have hpk : p < k := hbound p (mem_of_getNodeById_some hpn)
  have hj_not_A3i : j ∉ elemIds A3i := fun h2 =>
    absurd hjk (not_lt.mpr (hA3i_bound j h2).1)
  have hp_not_A3i : p ∉ elemIds A3i := fun h2 =>
    absurd hpk (not_lt.mpr (hA3i_bound p h2).1)
  have hout_i : ∀ m, getNodeById i (setAttrById p "transform"
      ("translate(" ++ (getAttr ni.attrs "x").getD "0" ++ ", "
        ++ (getAttr ni.attrs "y").getD "0" ++ ")") d) = some m → j ∉ elemIds m := by
    intro m hm
    rw [getNodeById_setAttrById, hni] at hm
    cases hm
    rw [elemIds_setAttrById]
    exact hdisjij
  have hout_i_p : ∀ m, getNodeById i (setAttrById p "transform"
      ("translate(" ++ (getAttr ni.attrs "x").getD "0" ++ ", "
        ++ (getAttr ni.attrs "y").getD "0" ++ ")") d) = some m → p ∉ elemIds m := by
    intro m hm
    rw [getNodeById_setAttrById, hni] at hm
    cases hm
    rw [elemIds_setAttrById]
    exact hpi
  have hgetj1 : getNodeById j (appendChildById p A3i (removeChildById p i
      (setAttrById p "transform"
        ("translate(" ++ (getAttr ni.attrs "x").getD "0" ++ ", "
          ++ (getAttr ni.attrs "y").getD "0" ++ ")") d))) = some nj := by
    rw [getNodeById_appendChildById j p A3i _ hj_not_A3i,
      getNodeById_removeChildById j p i _ hnd_set hout_i,
      getNodeById_setAttrById, hnj]
    simp only [Option.map_some']
    rw [setAttrById_id p "transform" _ nj hpj,
      removeChildById_id p i nj hdisjji,
      appendChildById_id p A3i nj hpj]
  have hgetp1 : getNodeById p (appendChildById p A3i (removeChildById p i
      (setAttrById p "transform"
        ("translate(" ++ (getAttr ni.attrs "x").getD "0" ++ ", "
          ++ (getAttr ni.attrs "y").getD "0" ++ ")") d)))
      = some (appendChildById p A3i (removeChildById p i
          (setAttrById p "transform"
            ("translate(" ++ (getAttr ni.attrs "x").getD "0" ++ ", "
              ++ (getAttr ni.attrs "y").getD "0" ++ ")") pn))) := by
    rw [getNodeById_appendChildById p p A3i _ hp_not_A3i,
      getNodeById_removeChildById p p i _ hnd_set hout_i_p,
      getNodeById_setAttrById, hpn]
    rfl
  have hpn_eid : pn.eid = p := getNodeById_eid p d pn hpn
  have hP1tag : (appendChildById p A3i (removeChildById p i
      (setAttrById p "transform"
        ("translate(" ++ (getAttr ni.attrs "x").getD "0" ++ ", "
          ++ (getAttr ni.attrs "y").getD "0" ++ ")") pn))).tag = svgGTag := by
    rw [tag_appendChildById, tag_removeChildById, tag_setAttrById]
    exact htag
  have hP1child : j ∈ childIds (appendChildById p A3i (removeChildById p i
      (setAttrById p "transform"
        ("translate(" ++ (getAttr ni.attrs "x").getD "0" ++ ", "
          ++ (getAttr ni.attrs "y").getD "0" ++ ")") pn))).children := by
    rw [childIds_children_appendChildById_self p A3i _
        (by rw [eid_removeChildById, eid_setAttrById]; exact hpn_eid),
      childIds_children_removeChildById_self p i _
        (by rw [eid_setAttrById]; exact hpn_eid),
      childIds_children_setAttrById]
    exact List.mem_append_left _ ((List.mem_erase_of_ne (Ne.symm hij)).mpr hchildj)
  have hspec_j := assignIds_spec rawj (assignIds k rawi).2
  rw [processImage_vector_red env pm
      (appendChildById p A3i (removeChildById p i
        (setAttrById p "transform"
          ("translate(" ++ (getAttr ni.attrs "x").getD "0" ++ ", "
            ++ (getAttr ni.attrs "y").getD "0" ++ ")") d)))
      (assignIds k rawi).2 j p nj
      (appendChildById p A3i (removeChildById p i
        (setAttrById p "transform"
          ("translate(" ++ (getAttr ni.attrs "x").getD "0" ++ ", "
            ++ (getAttr ni.attrs "y").getD "0" ++ ")") pn)))
      fpj rawj hgetj1 hhrefj hqj hpngj hgifj hsvgj hpmj hgetp1 hP1tag hparsej,
    fst_mk]
  have hA3j_eid : (match getAttr nj.attrs "height" with
      | some hv => if hv = ""
          then (match getAttr nj.attrs "width" with
            | some w => if w = "" then stripNS (assignIds (assignIds k rawi).2 rawj).1
                else setRootAttr (stripNS (assignIds (assignIds k rawi).2 rawj).1) "width" w
            | none => stripNS (assignIds (assignIds k rawi).2 rawj).1)
          else setRootAttr
            (match getAttr nj.attrs "width" with
              | some w => if w = "" then stripNS (assignIds (assignIds k rawi).2 rawj).1
                  else setRootAttr (stripNS (assignIds (assignIds k rawi).2 rawj).1) "width" w
              | none => stripNS (assignIds (assignIds k rawi).2 rawj).1) "height" hv
      | none => (match getAttr nj.attrs "width" with
          | some w => if w = "" then stripNS (assignIds (assignIds k rawi).2 rawj).1
              else setRootAttr (stripNS (assignIds (assignIds k rawi).2 rawj).1) "width" w
          | none => stripNS (assignIds (assignIds k rawi).2 rawj).1)).eid
      = (assignIds k rawi).2 := by
    rw [eid_whAdjust, eid_whAdjust, eid_stripNS, assignIds_eid]
  have hA3j_ids : elemIds (match getAttr nj.attrs "height" with
      | some hv => if hv = ""
          then (match getAttr nj.attrs "width" with
            | some w => if w = "" then stripNS (assignIds (assignIds k rawi).2 rawj).1
                else setRootAttr (stripNS (assignIds (assignIds k rawi).2 rawj).1) "width" w
            | none => stripNS (assignIds (assignIds k rawi).2 rawj).1)
          else setRootAttr
            (match getAttr nj.attrs "width" with
              | some w => if w = "" then stripNS (assignIds (assignIds k rawi).2 rawj).1
                  else setRootAttr (stripNS (assignIds (assignIds k rawi).2 rawj).1) "width" w
              | none => stripNS (assignIds (assignIds k rawi).2 rawj).1) "height" hv
      | none => (match getAttr nj.attrs "width" with
          | some w => if w = "" then stripNS (assignIds (assignIds k rawi).2 rawj).1
              else setRootAttr (stripNS (assignIds (assignIds k rawi).2 rawj).1) "width" w
          | none => stripNS (assignIds (assignIds k rawi).2 rawj).1))
      = elemIds (assignIds (assignIds k rawi).2 rawj).1 := by
    rw [elemIds_whAdjust, elemIds_whAdjust, elemIds_stripNS]
  generalize hA3j : (match getAttr nj.attrs "height" with
      | some hv => if hv = ""
          then (match getAttr nj.attrs "width" with
            | some w => if w = "" then stripNS (assignIds (assignIds k rawi).2 rawj).1
                else setRootAttr (stripNS (assignIds (assignIds k rawi).2 rawj).1) "width" w
            | none => stripNS (assignIds (assignIds k rawi).2 rawj).1)
          else setRootAttr
            (match getAttr nj.attrs "width" with
              | some w => if w = "" then stripNS (assignIds (assignIds k rawi).2 rawj).1
                  else setRootAttr (stripNS (assignIds (assignIds k rawi).2 rawj).1) "width" w
              | none => stripNS (assignIds (assignIds k rawi).2 rawj).1) "height" hv
      | none => (match getAttr nj.attrs "width" with
          | some w => if w = "" then stripNS (assignIds (assignIds k rawi).2 rawj).1
              else setRootAttr (stripNS (assignIds (assignIds k rawi).2 rawj).1) "width" w
          | none => stripNS (assignIds (assignIds k rawi).2 rawj).1)) = A3j
    at hA3j_eid hA3j_ids ⊢
  have hA3j_bound : ∀ x ∈ elemIds A3j, (assignIds k rawi).2 ≤ x := by
    intro x hx
    rw [hA3j_ids] at hx
    exact (hspec_j.2.1 x hx).1
  have hmain := vectorStepEffect
    (appendChildById p A3i (removeChildById p i
      (setAttrById p "transform"
        ("translate(" ++ (getAttr ni.attrs "x").getD "0" ++ ", "
          ++ (getAttr ni.attrs "y").getD "0" ++ ")") d)))
    p j (assignIds k rawi).2
    (appendChildById p A3i (removeChildById p i
      (setAttrById p "transform"
        ("translate(" ++ (getAttr ni.attrs "x").getD "0" ++ ", "
          ++ (getAttr ni.attrs "y").getD "0" ++ ")") pn)))
    nj A3j
    ("translate(" ++ (getAttr nj.attrs "x").getD "0" ++ ", "
      ++ (getAttr nj.attrs "y").getD "0" ++ ")")
    hnd1 hbound1 hgetj1 hgetp1 hP1child hpj hA3j_eid hA3j_bound
  rw [hmain.2.1]
  simp only [Option.map_some']
  simp [getAttr_setAttr_self]

end SvgEmbed

namespace SvgEmbed

/-- First vector image of the C7 witness document. -/
def niC7 : Elem :=
  Elem.node 2 svgImageTag [(hrefAttr, "./assets/a.svg"), ("x", "1")] none ElemList.nil

/-- Second vector image of the C7 witness document. -/
def njC7 : Elem :=
  Elem.node 3 svgImageTag [(hrefAttr, "./assets/b.svg"), ("x", "2")] none ElemList.nil

/-- Shared parent container of the C7 witness document. -/
def pnC7 : Elem :=
  Elem.node 1 svgGTag [] none (ElemList.cons niC7 (ElemList.cons njC7 ElemList.nil))

/-- Witness for the amended C7 at the concrete document `docC7`. -/
theorem c7_amended_last_wins_witness :
    (viewAt 1 (embedLoop envC7 (parentOf docC7) (docC7, 4) [2, 3]).1).map
        (fun v => getAttr v.attrs "transform")
      = some (some ("translate(" ++ (getAttr njC7.attrs "x").getD "0" ++ ", "
          ++ (getAttr njC7.attrs "y").getD "0" ++ ")")) :=
  c7_amended_last_wins envC7 (parentOf docC7) docC7 4 2 3 1 niC7 njC7 pnC7
    "./assets/a.svg" "./assets/b.svg"
    (RawElem.node "\x7bhttp://www.w3.org/2000/svg\x7dsvg" [] none RawElemList.nil)
    (RawElem.node "\x7bhttp://www.w3.org/2000/svg\x7dsvg" [] none RawElemList.nil)
    (by unfold IdsNodup; decide) (by decide) (by decide) (by decide) (by decide)
    (by decide) (by decide) (by decide) (by decide) (by decide) (by decide)
    (by decide) (by decide) (by decide) (by decide) (by decide) (by decide)
    (by decide) (by decide) (by decide) (by decide) (by decide) (by decide)
    (by decide) rfl rfl

end SvgEmbed

namespace SvgEmbed

/-- A successful sibling-list search means the identity occurs. -/
theorem memL_of_getNodeByIdL_some {i : Nat} {l : ElemList} {n : Elem}
    (h : getNodeByIdL i l = some n) : i ∈ elemIdsL l := by
  by_contra h2
  rw [(getNodeByIdL_none_iff i l).mpr h2] at h
  exact Option.noConfusion h

mutual
/-- Under distinct identities, the subtree found after a removal is the
removal applied to the subtree found before. -/
theorem getNodeById_removeChildById_general (i p c : Nat) :
    ∀ e : Elem, (elemIds e).Nodup →
      ∀ n2, getNodeById i (removeChildById p c e) = some n2 →
      ∃ n, getNodeById i e = some n ∧ n2 = removeChildById p c n
  | .node a t at2 tx cs => by
    intro hnd n2 h2
    simp only [elemIds] at hnd
    have hparts := List.nodup_cons.mp hnd
    by_cases hai : a = i
    · subst hai
      simp only [removeChildById, getNodeById, if_pos rfl] at h2
      cases h2
      exact ⟨Elem.node a t at2 tx cs, by simp [getNodeById], rfl⟩
    · simp only [removeChildById, getNodeById, if_neg hai] at h2 ⊢
      by_cases hap : a = p
      · rw [if_pos hap] at h2
        exact getNodeByIdL_removeChildByIdL_rf_general i p c cs hparts.2 n2 h2
      · rw [if_neg hap] at h2
        exact getNodeByIdL_removeChildByIdL_general i p c cs hparts.2 n2 h2
/-- Sibling-list version of `getNodeById_removeChildById_general`. -/
theorem getNodeByIdL_removeChildByIdL_general (i p c : Nat) :
    ∀ l : ElemList, (elemIdsL l).Nodup →
      ∀ n2, getNodeByIdL i (removeChildByIdL p c l) = some n2 →
      ∃ n, getNodeByIdL i l = some n ∧ n2 = removeChildById p c n
  | .nil => by intro _ n2 h2; simp [removeChildByIdL, getNodeByIdL] at h2
  | .cons e es => by
    intro hnd n2 h2
    simp only [elemIdsL] at hnd
    have hparts := List.nodup_append.mp hnd
    simp only [removeChildByIdL, getNodeByIdL] at h2 ⊢
    rcases hf : getNodeById i (removeChildById p c e) with _ | r
    · rw [hf] at h2
      rcases getNodeByIdL_removeChildByIdL_general i p c es hparts.2.1 n2 h2 with ⟨n, hn, hn2⟩
      have hie : getNodeById i e = none := by
        rw [getNodeById_none_iff]
        intro hin
        apply hparts.2.2 hin
        exact (elemIdsL_removeChildByIdL_sublist p c es).mem (memL_of_getNodeByIdL_some h2)
      rw [hie]
      exact ⟨n, hn, hn2⟩
    · rw [hf] at h2
      cases h2
      rcases getNodeById_removeChildById_general i p c e hparts.1 _ hf with ⟨n, hn, hn2⟩
      rw [hn]
      exact ⟨n, rfl, hn2⟩
/-- Variant for the parent element with the dropped first child. -/
theorem getNodeByIdL_removeChildByIdL_rf_general (i p c : Nat) :
    ∀ l : ElemList, (elemIdsL l).Nodup →
      ∀ n2, getNodeByIdL i (removeFirstChild c (removeChildByIdL p c l)) = some n2 →
      ∃ n, getNodeByIdL i l = some n ∧ n2 = removeChildById p c n
  | .nil => by intro _ n2 h2; simp [removeChildByIdL, removeFirstChild, getNodeByIdL] at h2
  | .cons e es => by
    intro hnd n2 h2
    simp only [elemIdsL] at hnd
    have hparts := List.nodup_append.mp hnd
    simp only [removeChildByIdL] at h2
    by_cases hec : (removeChildById p c e).eid = c
    · rw [removeFirstChild, if_pos hec] at h2
      rcases getNodeByIdL_removeChildByIdL_general i p c es hparts.2.1 n2 h2 with ⟨n, hn, hn2⟩
      have hie : getNodeById i e = none := by
        rw [getNodeById_none_iff]
        intro hin
        apply hparts.2.2 hin
        exact (elemIdsL_removeChildByIdL_sublist p c es).mem (memL_of_getNodeByIdL_some h2)
      simp only [getNodeByIdL, hie]
      exact ⟨n, hn, hn2⟩
    · rw [removeFirstChild, if_neg hec] at h2
      simp only [getNodeByIdL] at h2 ⊢
      rcases hf : getNodeById i (removeChildById p c e) with _ | r
      · rw [hf] at h2
        rcases getNodeByIdL_removeChildByIdL_rf_general i p c es hparts.2.1 n2 h2
          with ⟨n, hn, hn2⟩
        have hie : getNodeById i e = none := by
          rw [getNodeById_none_iff]
          intro hin
          apply hparts.2.2 hin
          exact (elemIdsL_removeChildByIdL_sublist p c es).mem
            ((elemIdsL_removeFirstChild_sublist c _).mem (memL_of_getNodeByIdL_some h2))
        rw [hie]
        exact ⟨n, hn, hn2⟩
      · rw [hf] at h2
        cases h2
        rcases getNodeById_removeChildById_general i p c e hparts.1 _ hf with ⟨n, hn, hn2⟩
        rw [hn]
        exact ⟨n, rfl, hn2⟩
end

end SvgEmbed

namespace SvgEmbed

/-- View of another element is unchanged by an attribute update. -/
theorem viewAt_setAttrById_ne (q i : Nat) (k v : String) (d : Elem) (h : q ≠ i) :
    viewAt q (setAttrById i k v d) = viewAt q d := by
  rw [viewAt, viewAt, getNodeById_setAttrById]
  rcases hg : getNodeById q d with _ | n
  · rfl
  · simp only [Option.map_some']
    have h2 : n.eid = q := getNodeById_eid q d n hg
    rw [view_setAttrById, h2, if_neg h]

/-- View of an element outside the removed subtree and distinct from the
parent is unchanged by a removal. -/
theorem viewAt_removeChildById_ne (q p c : Nat) (d : Elem)
    (hnd : (elemIds d).Nodup)
    (hout : ∀ m, getNodeById c d = some m → q ∉ elemIds m) (h : q ≠ p) :
    viewAt q (removeChildById p c d) = viewAt q d := by
  rw [viewAt, viewAt, getNodeById_removeChildById q p c d hnd hout]
  rcases hg : getNodeById q d with _ | n
  · rfl
  · simp only [Option.map_some']
    have h2 : n.eid = q := getNodeById_eid q d n hg
    rw [view_removeChildById, h2, if_neg h]

/-- View of another pre-existing element is unchanged by an append. -/
theorem viewAt_appendChildById_ne (q p : Nat) (nc : Elem) (d : Elem)
    (hq : q ∉ elemIds nc) (h : q ≠ p) :
    viewAt q (appendChildById p nc d) = viewAt q d := by
  rw [viewAt, viewAt, getNodeById_appendChildById q p nc d hq]
  rcases hg : getNodeById q d with _ | n
  · rfl
  · simp only [Option.map_some']
    have h2 : n.eid = q := getNodeById_eid q d n hg
    rw [view_appendChildById, h2, if_neg h]

/-- View of an element distinct from the parent either survives a
removal unchanged or disappears with the removed subtree. -/
theorem viewAt_removeChildById_or (q p c : Nat) (d : Elem)
    (hnd : (elemIds d).Nodup) (h : q ≠ p) :
    viewAt q (removeChildById p c d) = viewAt q d
    ∨ viewAt q (removeChildById p c d) = none := by
  rcases hg : getNodeById q (removeChildById p c d) with _ | n2
  · right
    rw [viewAt, hg]
    rfl
  · left
    rcases getNodeById_removeChildById_general q p c d hnd n2 hg with ⟨n, hn, hn2⟩
    rw [viewAt, viewAt, hg, hn]
    simp only [Option.map_some']
    have h2 : n.eid = q := getNodeById_eid q d n hn
    rw [hn2, view_removeChildById, h2, if_neg h]

/-- One loop iteration on an absent identity leaves the state unchanged. -/
theorem processImage_id_of_absent (env : Env) (pm : Nat → Option Nat) (d : Elem)
    (k imgId : Nat) (h : getNodeById imgId d = none) :
    processImage env pm (d, k) imgId = (d, k) := by
  simp [processImage, processImageCore, h]

/-- Reduction of one loop iteration in the successful raster branch. -/
theorem processImage_raster_red (env : Env) (pm : Nat → Option Nat) (d : Elem)
    (k imgId : Nat) (img : Elem) (fp uri : String) (lg : List String)
    (hn : getNodeById imgId d = some img)
    (hhref : getAttr img.attrs hrefAttr = some fp)
    (hq : strStartsWith fp assetsDirStr = true)
    (hext : (strEndsWith fp ".png" || strEndsWith fp ".gif") = true)
    (hcd : create_data_uri env fp = (some uri, lg)) :
    processImage env pm (d, k) imgId = (setAttrById imgId hrefAttr uri d, k) := by
  simp [processImage, processImageCore, hn, hhref, hq, hext, hcd]

/-- One loop iteration in the raster branch with a failed data URI is the
identity. -/
theorem processImage_raster_none (env : Env) (pm : Nat → Option Nat) (d : Elem)
    (k imgId : Nat) (img : Elem) (fp : String)
    (hn : getNodeById imgId d = some img)
    (hhref : getAttr img.attrs hrefAttr = some fp)
    (hq : strStartsWith fp assetsDirStr = true)
    (hext : (strEndsWith fp ".png" || strEndsWith fp ".gif") = true)
    (hcd : (create_data_uri env fp).1 = none) :
    processImage env pm (d, k) imgId = (d, k) := by
  rcases hc : create_data_uri env fp with ⟨o, lg⟩
  rw [hc] at hcd
  simp only at hcd
  subst hcd
  simp [processImage, processImageCore, hn, hhref, hq, hext, hc]

/-- One loop iteration in the vector branch with any failing guard
(no recorded parent, vanished parent, non-`<g>` parent, unparsable or
missing asset) is the identity. -/
theorem processImage_vector_skip (env : Env) (pm : Nat → Option Nat) (d : Elem)
    (k imgId : Nat) (img : Elem) (fp : String)
    (hn : getNodeById imgId d = some img)
    (hhref : getAttr img.attrs hrefAttr = some fp)
    (hq : strStartsWith fp assetsDirStr = true)
    (hext : (strEndsWith fp ".png" || strEndsWith fp ".gif") = false)
    (hsvg : strEndsWith fp ".svg" = true)
    (hvec : pm imgId = none
      ∨ (∃ pid, pm imgId = some pid ∧ getNodeById pid d = none)
      ∨ (∃ pid pn, pm imgId = some pid ∧ getNodeById pid d = some pn ∧ pn.tag ≠ svgGTag)
      ∨ (∃ pid pn, pm imgId = some pid ∧ getNodeById pid d = some pn ∧ pn.tag = svgGTag
          ∧ (env.parseXml fp = ParseOutcome.notFound
            ∨ env.parseXml fp = ParseOutcome.parseError))) :
    processImage env pm (d, k) imgId = (d, k) := by
  have hb : (strEndsWith fp ".png" || strEndsWith fp ".gif") = false := hext
  rcases hvec with hpm | ⟨pid, hpm, hpn⟩ | ⟨pid, pn, hpm, hpn, htag⟩
    | ⟨pid, pn, hpm, hpn, htag, hparse⟩
  · simp [processImage, processImageCore, hn, hhref, hq, hb, hsvg, hpm]
  · simp [processImage, processImageCore, hn, hhref, hq, hb, hsvg, hpm, hpn]
  · simp [processImage, processImageCore, hn, hhref, hq, hb, hsvg, hpm, hpn, htag]
  · rcases hparse with hp | hp
    · simp [processImage, processImageCore, hn, hhref, hq, hb, hsvg, hpm, hpn, htag, hp]
    · simp [processImage, processImageCore, hn, hhref, hq, hb, hsvg, hpm, hpn, htag, hp]

/-- One loop iteration on a qualifying reference with an extension the
dispatch does not handle is the identity. -/
theorem processImage_other_ext (env : Env) (pm : Nat → Option Nat) (d : Elem)
    (k imgId : Nat) (img : Elem) (fp : String)
    (hn : getNodeById imgId d = some img)
    (hhref : getAttr img.attrs hrefAttr = some fp)
    (hq : strStartsWith fp assetsDirStr = true)
    (hext : (strEndsWith fp ".png" || strEndsWith fp ".gif") = false)
    (hsvg : strEndsWith fp ".svg" = false) :
    processImage env pm (d, k) imgId = (d, k) := by
  simp [processImage, processImageCore, hn, hhref, hq, hext, hsvg]

end SvgEmbed

namespace SvgEmbed

/-- Whether a view carries a qualifying reference attribute. -/
def viewHrefQualifies (v : NodeView) : Bool :=
  match getAttr v.attrs hrefAttr with
  | some fp => strStartsWith fp assetsDirStr
  | none => false

/-- The qualification test factors through the view. -/
theorem hrefQualifies_eq_view (n : Elem) : hrefQualifies n = viewHrefQualifies n.view := by
  rw [hrefQualifies, viewHrefQualifies, view_attrs]

/-- Second projection of a literal state pair. -/
theorem snd_mk (a : Elem) (b : Nat) : ((a, b) : Elem × Nat).2 = b := rfl

/-- An image-scan identity with distinct identities belongs to an
image-tagged element. -/
theorem descImages_tag (d0 : Elem) (hnd0 : IdsNodup d0) (j : Nat) (n0 : Elem)
    (hj : j ∈ descImages d0) (hget : getNodeById j d0 = some n0) :
    n0.tag = svgImageTag := by
  rcases descImages_spec d0 j hj with ⟨m, hm, heid, htag⟩
  have h2 := mem_allNodes_getNodeById d0 hnd0 m hm
  rw [heid, hget] at h2
  cases h2
  exact htag

/-- Vector-qualifying identities are identities of the document. -/
theorem qualVectorIds_le_maxId (d0 : Elem) (j : Nat) (hj : j ∈ qualVectorIds d0) :
    j ≤ maxId d0 := by
  rcases List.mem_map.mp hj with ⟨n, hn, heid⟩
  have h2 := (List.mem_filter.mp hn).1
  apply maxId_bound
  rw [← heid, elemIds_eq_map_allNodes]
  exact List.mem_map_of_mem _ h2

/-- Membership in the parents of vector-qualifying references. -/
theorem mem_qvParents (d0 : Elem) (j pid : Nat) (hj : j ∈ qualVectorIds d0)
    (hpm : parentOf d0 j = some pid) : pid ∈ qvParents d0 :=
  List.mem_filterMap.mpr ⟨j, hj, hpm⟩

/-- The invariant carried through the image loop: identities stay
distinct and below the counter, the counter stays above all original
identities, kept elements keep their recorded views, kept elements stay
outside every vector-qualifying subtree, and unprocessed images are
either untouched or detached. -/
structure EmbedInv (env : Env) (d0 : Elem) (K : Nat → Prop) (V : Nat → Option NodeView)
    (rest : List Nat) (s : Elem × Nat) : Prop where
  nodup : (elemIds s.1).Nodup
  bound : ∀ x ∈ elemIds s.1, x < s.2
  base : maxId d0 < s.2
  keep : ∀ e, K e → viewAt e s.1 = V e
  keepSub : ∀ e, K e → ∀ j2 ∈ qualVectorIds d0, ∀ n, getNodeById j2 s.1 = some n →
    e ∉ elemIds n
  future : ∀ j2 ∈ rest, viewAt j2 s.1 = viewAt j2 d0 ∨ viewAt j2 s.1 = none

end SvgEmbed

namespace SvgEmbed

/-- A loop iteration that leaves the state unchanged preserves the
invariant. -/
theorem embedInv_id_step (env : Env) (d0 : Elem) (K : Nat → Prop) (V : Nat → Option NodeView)
    (j : Nat) (tail : List Nat) (s : Elem × Nat)
    (h : EmbedInv env d0 K V (j :: tail) s) : EmbedInv env d0 K V tail s :=
  ⟨h.nodup, h.bound, h.base, h.keep, h.keepSub,
    fun j2 hj2 => h.future j2 (List.mem_cons_of_mem _ hj2)⟩

/-- The raster write preserves the invariant. -/
theorem embedInv_raster_write (env : Env) (d0 : Elem) (K : Nat → Prop)
    (V : Nat → Option NodeView) (j : Nat) (tail : List Nat) (d : Elem) (k : Nat)
    (uri : String)
    (hKj : ∀ e, K e → e ≠ j)
    (hjtail : j ∉ tail)
    (inv : EmbedInv env d0 K V (j :: tail) (d, k)) :
    EmbedInv env d0 K V tail (setAttrById j hrefAttr uri d, k) := by
  refine ⟨?_, ?_, ?_, ?_, ?_, ?_⟩
  · simp only [fst_mk]
    rw [elemIds_setAttrById]
    exact inv.nodup
  · simp only [fst_mk, snd_mk]
    intro x hx
    rw [elemIds_setAttrById] at hx
    exact inv.bound x hx
  · simp only [snd_mk]
    exact inv.base
  · simp only [fst_mk]
    intro e he
    rw [viewAt_setAttrById_ne e j _ _ d (hKj e he)]
    exact inv.keep e he
  · simp only [fst_mk]
    intro e he j2 hj2 n hn
    rw [getNodeById_setAttrById] at hn
    rcases ho : getNodeById j2 d with _ | nold
    · rw [ho] at hn
      exact absurd hn (by simp)
    · rw [ho] at hn
      simp only [Option.map_some'] at hn
      cases hn
      rw [elemIds_setAttrById]
      exact inv.keepSub e he j2 hj2 nold ho
  · simp only [fst_mk]
    intro j2 hj2
    have hne : j2 ≠ j := fun h2 => hjtail (h2 ▸ hj2)
    rw [viewAt_setAttrById_ne j2 j _ _ d hne]
    exact inv.future j2 (List.mem_cons_of_mem _ hj2)

/-- The vector write (transform, removal, append of a fresh asset root)
preserves the invariant. -/
theorem embedInv_vector_write (env : Env) (d0 : Elem) (K : Nat → Prop)
    (V : Nat → Option NodeView) (j : Nat) (tail : List Nat) (d : Elem) (k k2 pid : Nat)
    (njc pnj A3 : Elem) (tr : String)
    (hnd0 : IdsNodup d0)
    (hKmax : ∀ e, K e → e ≤ maxId d0)
    (hKp : ∀ e, K e → e ∉ qvParents d0)
    (htail : ∀ x ∈ tail, x ∈ descImages d0)
    (hjtail : j ∉ tail)
    (hjQV : j ∈ qualVectorIds d0)
    (hpidQV : pid ∈ qvParents d0)
    (hgetj : getNodeById j d = some njc)
    (hgp : getNodeById pid d = some pnj)
    (htg : pnj.tag = svgGTag)
    (hk2 : k < k2)
    (hA3_lo : ∀ x ∈ elemIds A3, k ≤ x)
    (hA3_hi : ∀ x ∈ elemIds A3, x < k2)
    (hA3_nodup : (elemIds A3).Nodup)
    (inv : EmbedInv env d0 K V (j :: tail) (d, k)) :
    EmbedInv env d0 K V tail
      (appendChildById pid A3 (removeChildById pid j (setAttrById pid "transform" tr d)),
       k2) := by
  have hnd : (elemIds d).Nodup := inv.nodup
  have hbnd : ∀ x ∈ elemIds d, x < k := inv.bound
  have hnd_set : (elemIds (setAttrById pid "transform" tr d)).Nodup := by
    rw [elemIds_setAttrById]
    exact hnd
  have hnd_rem : (elemIds (removeChildById pid j (setAttrById pid "transform" tr d))).Nodup :=
    (elemIds_removeChildById_sublist pid j _).nodup hnd_set
  have hsub_rem : ∀ x ∈ elemIds (removeChildById pid j (setAttrById pid "transform" tr d)),
      x ∈ elemIds d := by
    intro x hx
    have h2 := (elemIds_removeChildById_sublist pid j _).mem hx
    rw [elemIds_setAttrById] at h2
    exact h2
  have hout : ∀ m, getNodeById j (setAttrById pid "transform" tr d) = some m →
      ∀ e, K e → e ∉ elemIds m := by
    intro m hm e he
    rw [getNodeById_setAttrById, hgetj] at hm
    simp only [Option.map_some'] at hm
    cases hm
    rw [elemIds_setAttrById]
    exact inv.keepSub e he j hjQV njc hgetj
  refine ⟨?_, ?_, ?_, ?_, ?_, ?_⟩
  · simp only [fst_mk]
    apply nodup_appendChildById pid A3 _ hnd_rem hA3_nodup
    intro x hx hx2
    exact absurd (hbnd x (hsub_rem x hx2)) (not_lt.mpr (hA3_lo x hx))
  · simp only [fst_mk, snd_mk]
    intro x hx
    rcases elemIds_appendChildById_subset pid A3 _ x hx with h2 | h2
    · exact lt_trans (hbnd x (hsub_rem x h2)) hk2
    · exact hA3_hi x h2
  · simp only [snd_mk]
    exact lt_trans inv.base hk2
  · simp only [fst_mk]
    intro e he
    have he_pid : e ≠ pid := fun h2 => hKp e he (h2 ▸ hpidQV)
    have he_A3 : e ∉ elemIds A3 := fun h2 =>
      absurd (lt_of_le_of_lt (hKmax e he) inv.base) (not_lt.mpr (hA3_lo e h2))
    rw [viewAt_appendChildById_ne e pid A3 _ he_A3 he_pid,
      viewAt_removeChildById_ne e pid j _ hnd_set (fun m hm => hout m hm e he) he_pid,
      viewAt_setAttrById_ne e pid _ _ d he_pid]
    exact inv.keep e he
  · simp only [fst_mk]
    intro e he j2 hj2 n hn
    have hj2k : j2 < k := lt_of_le_of_lt (qualVectorIds_le_maxId d0 j2 hj2) inv.base
    have hj2A3 : j2 ∉ elemIds A3 := fun h2 => absurd hj2k (not_lt.mpr (hA3_lo j2 h2))
    have he_A3 : e ∉ elemIds A3 := fun h2 =>
      absurd (lt_of_le_of_lt (hKmax e he) inv.base) (not_lt.mpr (hA3_lo e h2))
    rw [getNodeById_appendChildById j2 pid A3 _ hj2A3] at hn
    rcases hmid : getNodeById j2 (removeChildById pid j (setAttrById pid "transform" tr d))
      with _ | nmid
    · rw [hmid] at hn
      exact absurd hn (by simp)
    · rw [hmid] at hn
      simp only [Option.map_some'] at hn
      cases hn
      rcases getNodeById_removeChildById_general j2 pid j _ hnd_set nmid hmid
        with ⟨nprev, hprev, hmid_eq⟩
      rw [getNodeById_setAttrById] at hprev
      rcases horig : getNodeById j2 d with _ | norig
      · rw [horig] at hprev
        exact absurd hprev (by simp)
      · rw [horig] at hprev
        simp only [Option.map_some'] at hprev
        cases hprev
        intro hmem
        rcases elemIds_appendChildById_subset pid A3 nmid e hmem with h2 | h2
        · rw [hmid_eq] at h2
          have h3 := (elemIds_removeChildById_sublist pid j _).mem h2
          rw [elemIds_setAttrById] at h3
          exact inv.keepSub e he j2 hj2 norig horig h3
        · exact he_A3 h2
  · simp only [fst_mk]
    intro j2 hj2
    have hne_j : j2 ≠ j := fun h2 => hjtail (h2 ▸ hj2)
    have hj2_desc := htail j2 hj2
    have hj2_mem : j2 ∈ elemIds d0 := (descImages_sublist d0).mem hj2_desc
    have hj2k : j2 < k := lt_of_le_of_lt (maxId_bound d0 j2 hj2_mem) inv.base
    have hj2A3 : j2 ∉ elemIds A3 := fun h2 => absurd hj2k (not_lt.mpr (hA3_lo j2 h2))
    have hfut := inv.future j2 (List.mem_cons_of_mem _ hj2)
    have hne_pid : j2 ≠ pid := by
      intro h2
      subst h2
      rcases hfut with hcase | hcase
      · rw [viewAt, hgp] at hcase
        simp only [Option.map_some'] at hcase
        rcases hg0 : getNodeById j2 d0 with _ | m0
        · rw [viewAt, hg0] at hcase
          exact Option.noConfusion hcase
        · rw [viewAt, hg0] at hcase
          simp only [Option.map_some', Option.some.injEq] at hcase
          have htag0 : m0.tag = svgImageTag := descImages_tag d0 hnd0 j2 m0 hj2_desc hg0
          have htagv : pnj.view.tag = m0.view.tag := by rw [hcase]
          rw [view_tag, view_tag, htg, htag0] at htagv
          exact absurd htagv (by decide)
      · rw [viewAt, hgp] at hcase
        simp at hcase
    rw [viewAt_appendChildById_ne j2 pid A3 _ hj2A3 hne_pid]
    rcases viewAt_removeChildById_or j2 pid j (setAttrById pid "transform" tr d) hnd_set
      hne_pid with hcase | hcase
    · rw [hcase, viewAt_setAttrById_ne j2 pid _ _ d hne_pid]
      exact hfut
    · right
      exact hcase

end SvgEmbed

namespace SvgEmbed

/-- An unprocessed image whose current node carries a qualifying `.svg`
reference is a vector-qualifying image of the original document. -/
theorem mem_qualVectorIds (d0 : Elem) (hnd0 : IdsNodup d0) (j : Nat) (d njc : Elem)
    (fp : String)
    (hjim : j ∈ descImages d0)
    (hfut : viewAt j d = viewAt j d0 ∨ viewAt j d = none)
    (hg : getNodeById j d = some njc)
    (hh : getAttr njc.attrs hrefAttr = some fp)
    (hsw : strStartsWith fp assetsDirStr = true)
    (hpng : strEndsWith fp ".png" = false)
    (hgif : strEndsWith fp ".gif" = false)
    (hsvg : strEndsWith fp ".svg" = true) :
    j ∈ qualVectorIds d0 := by
  have hvj : viewAt j d = some njc.view := by
    rw [viewAt, hg]
    rfl
  rcases hfut with hcase | hcase
  · rw [hvj] at hcase
    rcases hg0 : getNodeById j d0 with _ | m0
    · rw [viewAt, hg0] at hcase
      exact Option.noConfusion hcase
    · rw [viewAt, hg0] at hcase
      simp only [Option.map_some', Option.some.injEq] at hcase
      have hattrs : m0.attrs = njc.attrs := by
        have h2 := congrArg NodeView.attrs hcase
        rw [view_attrs, view_attrs] at h2
        exact h2.symm
      have htag0 : m0.tag = svgImageTag := descImages_tag d0 hnd0 j m0 hjim hg0
      have hhref0 : getAttr m0.attrs hrefAttr = some fp := by
        rw [hattrs]
        exact hh
      have hro : hrefOf m0 = fp := by
        rw [hrefOf, hhref0]
        rfl
      apply List.mem_map.mpr
      refine ⟨m0, List.mem_filter.mpr ⟨getNodeById_mem j d0 m0 hg0, ?_⟩,
        getNodeById_eid j d0 m0 hg0⟩
      simp [isQualVector, htag0, hrefQualifies, hhref0, hsw, hro, hpng, hgif, hsvg]
  · rw [hvj] at hcase
    exact Option.noConfusion hcase

/-- One iteration of the image loop preserves the invariant, provided the
kept elements sit below the original identities, are no vector parents,
and (when images) carry non-qualifying references. -/
theorem embedInv_step (env : Env) (d0 : Elem) (K : Nat → Prop) (V : Nat → Option NodeView)
    (j : Nat) (tail : List Nat) (s : Elem × Nat)
    (hnd0 : IdsNodup d0)
    (hKmax : ∀ e, K e → e ≤ maxId d0)
    (hKp : ∀ e, K e → e ∉ qvParents d0)
    (hKq : ∀ e, K e → e = j → ∀ v, V e = some v → viewHrefQualifies v = false)
    (hjim : j ∈ descImages d0)
    (hjtail : j ∉ tail)
    (htail : ∀ x ∈ tail, x ∈ descImages d0)
    (inv : EmbedInv env d0 K V (j :: tail) s) :
    EmbedInv env d0 K V tail (processImage env (parentOf d0) s j) := by
  rcases s with ⟨d, k⟩
  rcases hg : getNodeById j d with _ | njc
  · rw [processImage_id_of_absent env (parentOf d0) d k j hg]
    exact embedInv_id_step env d0 K V j tail (d, k) inv
  rcases hh : getAttr njc.attrs hrefAttr with _ | fp
  · have hq : hrefQualifies njc = false := by simp [hrefQualifies, hh]
    have hpi : processImage env (parentOf d0) (d, k) j = (d, k) := by
      show (processImageCore env (parentOf d0) d k j).1 = (d, k)
      rw [processImage_id_of_nonqual env (parentOf d0) d k j njc hg hq]
    rw [hpi]
    exact embedInv_id_step env d0 K V j tail (d, k) inv
  rcases hsw : strStartsWith fp assetsDirStr with _ | _
  · have hq : hrefQualifies njc = false := by simp [hrefQualifies, hh, hsw]
    have hpi : processImage env (parentOf d0) (d, k) j = (d, k) := by
      show (processImageCore env (parentOf d0) d k j).1 = (d, k)
      rw [processImage_id_of_nonqual env (parentOf d0) d k j njc hg hq]
    rw [hpi]
    exact embedInv_id_step env d0 K V j tail (d, k) inv
  rcases hext : (strEndsWith fp ".png" || strEndsWith fp ".gif") with _ | _
  · -- not a raster extension
    rcases hsvg : strEndsWith fp ".svg" with _ | _
    · rw [processImage_other_ext env (parentOf d0) d k j njc fp hg hh hsw hext hsvg]
      exact embedInv_id_step env d0 K V j tail (d, k) inv
    · rcases hpm : parentOf d0 j with _ | pid
      · rw [processImage_vector_skip env (parentOf d0) d k j njc fp hg hh hsw hext hsvg
          (Or.inl hpm)]
        exact embedInv_id_step env d0 K V j tail (d, k) inv
      rcases hgp : getNodeById pid d with _ | pnj
      · rw [processImage_vector_skip env (parentOf d0) d k j njc fp hg hh hsw hext hsvg
          (Or.inr (Or.inl ⟨pid, hpm, hgp⟩))]
        exact embedInv_id_step env d0 K V j tail (d, k) inv
      by_cases htag : pnj.tag = svgGTag
      · rcases hparse : env.parseXml fp with _ | _ | raw
        · rw [processImage_vector_skip env (parentOf d0) d k j njc fp hg hh hsw hext hsvg
            (Or.inr (Or.inr (Or.inr ⟨pid, pnj, hpm, hgp, htag, Or.inl hparse⟩)))]
          exact embedInv_id_step env d0 K V j tail (d, k) inv
        · rw [processImage_vector_skip env (parentOf d0) d k j njc fp hg hh hsw hext hsvg
            (Or.inr (Or.inr (Or.inr ⟨pid, pnj, hpm, hgp, htag, Or.inr hparse⟩)))]
          exact embedInv_id_step env d0 K V j tail (d, k) inv
        · -- successful vector inlining
          have hpng : strEndsWith fp ".png" = false := by
            rcases Bool.or_eq_false_iff.mp hext with ⟨h1, _⟩
            exact h1
          have hgif : strEndsWith fp ".gif" = false := by
            rcases Bool.or_eq_false_iff.mp hext with ⟨_, h2⟩
            exact h2
          have hfut : viewAt j d = viewAt j d0 ∨ viewAt j d = none :=
            inv.future j (List.mem_cons_self j tail)
          have hjQV : j ∈ qualVectorIds d0 :=
            mem_qualVectorIds d0 hnd0 j d njc fp hjim hfut hg hh hsw hpng hgif hsvg
          have hpidQV : pid ∈ qvParents d0 := mem_qvParents d0 j pid hjQV hpm
          rw [processImage_vector_red env (parentOf d0) d k j pid njc pnj fp raw
            hg hh hsw hpng hgif hsvg hpm hgp htag hparse]
          refine embedInv_vector_write env d0 K V j tail d k _ pid njc pnj _ _
            hnd0 hKmax hKp htail hjtail hjQV hpidQV hg hgp htag
            (assignIds_spec raw k).1 ?_ ?_ ?_ inv
          · simp only [elemIds_whAdjust, elemIds_stripNS]
            intro x hx
            exact ((assignIds_spec raw k).2.1 x hx).1
          · simp only [elemIds_whAdjust, elemIds_stripNS]
            intro x hx
            exact ((assignIds_spec raw k).2.1 x hx).2
          · simp only [elemIds_whAdjust, elemIds_stripNS]
            exact (assignIds_spec raw k).2.2
      · rw [processImage_vector_skip env (parentOf d0) d k j njc fp hg hh hsw hext hsvg
          (Or.inr (Or.inr (Or.inl ⟨pid, pnj, hpm, hgp, htag⟩)))]
        exact embedInv_id_step env d0 K V j tail (d, k) inv
  · -- raster extension
    have hKj : ∀ e, K e → e ≠ j := by
      intro e he heq
      subst heq
      have hkeep : viewAt e d = V e := inv.keep e he
      have hVj : V e = some njc.view := by
        rw [← hkeep, viewAt, hg]
        rfl
      have h2 := hKq e he rfl njc.view hVj
      rw [← hrefQualifies_eq_view] at h2
      simp [hrefQualifies, hh, hsw] at h2
    rcases hcd : create_data_uri env fp with ⟨o, lg⟩
    rcases o with _ | uri
    · have hcd1 : (create_data_uri env fp).1 = none := by rw [hcd]
      rw [processImage_raster_none env (parentOf d0) d k j njc fp hg hh hsw hext hcd1]
      exact embedInv_id_step env d0 K V j tail (d, k) inv
    · rw [processImage_raster_red env (parentOf d0) d k j njc fp uri lg hg hh hsw hext hcd]
      exact embedInv_raster_write env d0 K V j tail d k uri hKj hjtail inv

end SvgEmbed

namespace SvgEmbed

/-- The image loop preserves the invariant along a processed segment. -/
theorem embedInv_fold (env : Env) (d0 : Elem) (K : Nat → Prop) (V : Nat → Option NodeView)
    (hnd0 : IdsNodup d0)
    (hKmax : ∀ e, K e → e ≤ maxId d0)
    (hKp : ∀ e, K e → e ∉ qvParents d0) :
    ∀ (l rest : List Nat) (s : Elem × Nat),
      (∀ e, K e → e ∈ l → ∀ v, V e = some v → viewHrefQualifies v = false) →
      (l ++ rest).Nodup →
      (∀ x ∈ l ++ rest, x ∈ descImages d0) →
      EmbedInv env d0 K V (l ++ rest) s →
      EmbedInv env d0 K V rest (embedLoop env (parentOf d0) s l)
  | [], rest, s => by
    intro _ _ _ inv
    exact inv
  | j :: l, rest, s => by
    intro hKq hnd hmem inv
    rw [embedLoop, List.foldl_cons]
    have hnd2 := hnd
    rw [List.cons_append, List.nodup_cons] at hnd2
    have hstep := embedInv_step env d0 K V j (l ++ rest) s hnd0 hKmax hKp
      (fun e he hej => hKq e he (hej ▸ List.mem_cons_self j l))
      (hmem j (List.mem_cons_self j (l ++ rest)))
      hnd2.1
      (fun x hx => hmem x (List.mem_cons_of_mem j hx))
      inv
    exact embedInv_fold env d0 K V hnd0 hKmax hKp l rest
      (processImage env (parentOf d0) s j)
      (fun e he hel => hKq e he (List.mem_cons_of_mem j hel))
      hnd2.2
      (fun x hx => hmem x (List.mem_cons_of_mem j hx))
      hstep

/-- A data URI never passes the assets-directory check. -/
theorem dataUri_not_qual (s : String) :
    strStartsWith ("data:" ++ s) assetsDirStr = false := by
  have h : ("data:" ++ s).data = 'd' :: 'a' :: 't' :: 'a' :: ':' :: s.data := by
    rw [String.data_append]
    rfl
  rw [strStartsWith, h, assetsDirStr]
  simp [List.isPrefixOf]

end SvgEmbed

namespace SvgEmbed

/-- C2: for every raster Image Reference (qualifying reference ending in
`.png` or `.gif`) whose asset file exists and whose MIME type is
recognized from the extension, and which sits in no inlined vector
subtree and is no vector parent itself, the output document's reference
attribute on that element equals
`data: ++ mime ++ ;base64, ++ b64encode bytes` where `bytes` are exactly
the asset file's contents. -/
theorem c2_raster_data_uri (env : Env) (d0 : Elem) (i : Nat) (n : Elem)
    (fp mime : String) (bytes : List Nat)
    (hnd0 : IdsNodup d0)
    (hi : i ∈ descImages d0)
    (hn : getNodeById i d0 = some n)
    (hhref : getAttr n.attrs hrefAttr = some fp)
    (hq : strStartsWith fp assetsDirStr = true)
    (hext : (strEndsWith fp ".png" || strEndsWith fp ".gif") = true)
    (hmime : guessType fp = some mime)
    (hread : env.readBytes fp = some bytes)
    (hnp : (qvParents d0).contains i = false)
    (hns : ∀ j2 ∈ qualVectorIds d0, inSubtreeOf d0 j2 i = false) :
    ∃ m, getNodeById i (runEmbed env d0) = some m
      ∧ getAttr m.attrs hrefAttr
        = some ("data:" ++ mime ++ ";base64," ++ b64encode bytes) := by
  obtain ⟨l1, l2, hsplit⟩ := List.append_of_mem hi
  have hndImg : (l1 ++ i :: l2).Nodup := by
    rw [← hsplit]
    exact (descImages_sublist d0).nodup hnd0
  rcases List.nodup_append.mp hndImg with ⟨hnd1, hndc, hdisj⟩
  have hil1 : i ∉ l1 := fun h2 => hdisj h2 (List.mem_cons_self i l2)
  have hil2 : i ∉ l2 := (List.nodup_cons.mp hndc).1
  have hmemAll : ∀ x ∈ l1 ++ i :: l2, x ∈ descImages d0 := by
    intro x hx
    rw [hsplit]
    exact hx
  have hKmax : ∀ e : Nat, e = i → e ≤ maxId d0 := by
    intro e he
    cases he
    exact maxId_bound d0 i ((descImages_sublist d0).mem hi)
  have hKp2 : ∀ e : Nat, e = i → e ∉ qvParents d0 := by
    intro e he
    cases he
    intro hmem
    have h2 : (qvParents d0).contains i = true := List.elem_eq_true_of_mem hmem
    rw [hnp] at h2
    exact Bool.noConfusion h2
  have hnsub : ∀ j2 ∈ qualVectorIds d0, ∀ m, getNodeById j2 d0 = some m →
      i ∉ elemIds m := by
    intro j2 hj2 m hm hmem
    have h2 := hns j2 hj2
    simp only [inSubtreeOf, hm] at h2
    have h3 : (elemIds m).contains i = true := List.elem_eq_true_of_mem hmem
    rw [h2] at h3
    exact Bool.noConfusion h3
  have inv0 : EmbedInv env d0 (fun e => e = i) (fun _ => some n.view) (l1 ++ i :: l2)
      (d0, maxId d0 + 1) := by
    refine ⟨?_, ?_, ?_, ?_, ?_, ?_⟩
    · exact hnd0
    · intro x hx
      exact Nat.lt_succ_of_le (maxId_bound d0 x hx)
    · exact Nat.lt_succ_self _
    · intro e he
      cases he
      show viewAt i d0 = some n.view
      rw [viewAt, hn]
      rfl
    · intro e he j2 hj2 m hm
      cases he
      exact hnsub j2 hj2 m hm
    · intro j2 _
      left
      rfl
  have invA := embedInv_fold env d0 (fun e => e = i) (fun _ => some n.view) hnd0
    hKmax hKp2 l1 (i :: l2) (d0, maxId d0 + 1)
    (fun e he hel => absurd (he ▸ hel) hil1) hndImg hmemAll inv0
  rcases hA : embedLoop env (parentOf d0) (d0, maxId d0 + 1) l1 with ⟨dA, kA⟩
  rw [hA] at invA
  have hviewA : viewAt i dA = some n.view := invA.keep i rfl
  rcases hgA : getNodeById i dA with _ | ni
  · rw [viewAt, hgA] at hviewA
    exact Option.noConfusion hviewA
  rw [viewAt, hgA] at hviewA
  simp only [Option.map_some', Option.some.injEq] at hviewA
  have hhrefA : getAttr ni.attrs hrefAttr = some fp := by
    have h2 := congrArg NodeView.attrs hviewA
    rw [view_attrs, view_attrs] at h2
    rw [h2]
    exact hhref
  have hcd : create_data_uri env fp
      = (some ("data:" ++ mime ++ ";base64," ++ b64encode bytes), []) := by
    simp [create_data_uri, hmime, hread]
  have hstepB : processImage env (parentOf d0) (dA, kA) i
      = (setAttrById i hrefAttr ("data:" ++ mime ++ ";base64," ++ b64encode bytes) dA,
         kA) :=
    processImage_raster_red env (parentOf d0) dA kA i ni fp _ [] hgA hhrefA hq hext hcd
  have invB : EmbedInv env d0 (fun e => e = i)
      (fun _ => some ⟨n.view.tag,
        setAttr n.view.attrs hrefAttr ("data:" ++ mime ++ ";base64," ++ b64encode bytes),
        n.view.text, n.view.childIds⟩) l2
      (setAttrById i hrefAttr ("data:" ++ mime ++ ";base64," ++ b64encode bytes) dA,
       kA) := by
    have hndA : (elemIds dA).Nodup := invA.nodup
    have hbA : ∀ x ∈ elemIds dA, x < kA := invA.bound
    have hbaseA : maxId d0 < kA := invA.base
    refine ⟨?_, ?_, ?_, ?_, ?_, ?_⟩
    · simp only [fst_mk]
      rw [elemIds_setAttrById]
      exact hndA
    · simp only [fst_mk, snd_mk]
      intro x hx
      rw [elemIds_setAttrById] at hx
      exact hbA x hx
    · exact hbaseA
    · intro e he
      cases he
      simp only [fst_mk]
      rw [viewAt, getNodeById_setAttrById, hgA]
      simp only [Option.map_some', Option.some.injEq]
      rw [view_setAttrById, getNodeById_eid i dA ni hgA, if_pos rfl, hviewA]
    · intro e he j2 hj2 m hm
      cases he
      simp only [fst_mk] at hm
      rw [getNodeById_setAttrById] at hm
      rcases ho : getNodeById j2 dA with _ | mold
      · rw [ho] at hm
        exact absurd hm (by simp)
      · rw [ho] at hm
        simp only [Option.map_some'] at hm
        cases hm
        rw [elemIds_setAttrById]
        exact invA.keepSub i rfl j2 hj2 mold ho
    · intro j2 hj2
      simp only [fst_mk]
      have hne : j2 ≠ i := fun h2 => hil2 (h2 ▸ hj2)
      rw [viewAt_setAttrById_ne j2 i _ _ dA hne]
      exact invA.future j2 (List.mem_cons_of_mem _ hj2)
  have invB2 : EmbedInv env d0 (fun e => e = i)
      (fun _ => some ⟨n.view.tag,
        setAttr n.view.attrs hrefAttr ("data:" ++ mime ++ ";base64," ++ b64encode bytes),
        n.view.text, n.view.childIds⟩) (l2 ++ [])
      (setAttrById i hrefAttr ("data:" ++ mime ++ ";base64," ++ b64encode bytes) dA,
       kA) := by
    rw [List.append_nil]
    exact invB
  have invC := embedInv_fold env d0 (fun e => e = i)
    (fun _ => some ⟨n.view.tag,
      setAttr n.view.attrs hrefAttr ("data:" ++ mime ++ ";base64," ++ b64encode bytes),
      n.view.text, n.view.childIds⟩) hnd0 hKmax hKp2 l2 []
    (setAttrById i hrefAttr ("data:" ++ mime ++ ";base64," ++ b64encode bytes) dA, kA)
    (fun e he hel => absurd (he ▸ hel) hil2)
    (by rw [List.append_nil]; exact (List.nodup_cons.mp hndc).2)
    (by
      rw [List.append_nil]
      intro x hx
      exact hmemAll x (List.mem_append.mpr (Or.inr (List.mem_cons_of_mem _ hx))))
    invB2
  have hA' : List.foldl (processImage env (parentOf d0)) (d0, maxId d0 + 1) l1
      = (dA, kA) := hA
  have hrun : runEmbed env d0
      = (embedLoop env (parentOf d0)
          (setAttrById i hrefAttr ("data:" ++ mime ++ ";base64," ++ b64encode bytes) dA,
           kA) l2).1 := by
    rw [runEmbed, hsplit]
    show (List.foldl (processImage env (parentOf d0)) (d0, maxId d0 + 1)
        (l1 ++ i :: l2)).1 = _
    rw [List.foldl_append, List.foldl_cons, hA']
    show (List.foldl (processImage env (parentOf d0))
        (processImage env (parentOf d0) (dA, kA) i) l2).1 = _
    rw [hstepB]
    rfl
  have hfinal : viewAt i (runEmbed env d0)
      = some ⟨n.view.tag,
          setAttr n.view.attrs hrefAttr
            ("data:" ++ mime ++ ";base64," ++ b64encode bytes),
          n.view.text, n.view.childIds⟩ := by
    rw [hrun]
    exact invC.keep i rfl
  rcases hm : getNodeById i (runEmbed env d0) with _ | m
  · rw [viewAt, hm] at hfinal
    exact Option.noConfusion hfinal
  · rw [viewAt, hm] at hfinal
    simp only [Option.map_some', Option.some.injEq] at hfinal
    refine ⟨m, rfl, ?_⟩
    have h2 := congrArg NodeView.attrs hfinal
    rw [view_attrs] at h2
    rw [h2, view_attrs, getAttr_setAttr_self]

end SvgEmbed

namespace SvgEmbed

/-- Document for the C2 witness: one raster image reference inside the
root. -/
def docC2 : Elem :=
  Elem.node 0 "\x7bhttp://www.w3.org/2000/svg\x7dsvg" [] none
    (ElemList.cons
      (Elem.node 1 svgImageTag [(hrefAttr, "./assets/a.png")] none ElemList.nil)
      ElemList.nil)

/-- Environment for the C2 witness: the referenced asset holds the two
bytes of `hi`. -/
def envC2 : Env :=
  ⟨fun p => if p = "./assets/a.png" then some [104, 105] else none,
   fun _ => ParseOutcome.notFound⟩

/-- Witness for C2 at a concrete input. -/
theorem c2_raster_data_uri_witness :
    ∃ m, getNodeById 1 (runEmbed envC2 docC2) = some m
      ∧ getAttr m.attrs hrefAttr
        = some ("data:" ++ "image/png" ++ ";base64," ++ b64encode [104, 105]) :=
  c2_raster_data_uri envC2 docC2 1
    (Elem.node 1 svgImageTag [(hrefAttr, "./assets/a.png")] none ElemList.nil)
    "./assets/a.png" "image/png" [104, 105]
    (by unfold IdsNodup; decide) (by decide) (by decide) (by decide) (by decide)
    (by decide) (by decide) rfl (by decide) (by decide)

end SvgEmbed

namespace SvgEmbed

/-- The frame condition under which an element of the input document is
actually preserved by the transform: it exists, it is not an image
carrying a qualifying reference, it is not the parent of a
vector-qualifying image, and it sits in no vector-qualifying subtree. -/
def keepC8 (d0 : Elem) (e : Nat) : Bool :=
  (elemIds d0).contains e
    && (match getNodeById e d0 with
        | some m => !(m.tag == svgImageTag && hrefQualifies m)
        | none => true)
    && !((qvParents d0).contains e)
    && (qualVectorIds d0).all (fun j2 => !(inSubtreeOf d0 j2 e))

/-- C8 (amended): every element of the input document that is not an
Image Reference passing the assets-directory check, is not the parent
container of a vector-qualifying Image Reference, and does not lie
inside the subtree of any vector-qualifying Image Reference, appears in
the output with the same tag, attributes, text and child list as in the
input.  (Elements inside an inlined vector Image Reference's subtree are
removed together with it, see the counterexample; the original claim
exempted only the references themselves and their parents.) -/
theorem c8_amended_frame (env : Env) (d0 : Elem) (e : Nat)
    (hnd0 : IdsNodup d0) (hk : keepC8 d0 e = true) :
    viewAt e (runEmbed env d0) = viewAt e d0 := by
  rw [keepC8] at hk
  simp only [Bool.and_eq_true] at hk
  obtain ⟨⟨⟨hmem, hq⟩, hnp⟩, hsub⟩ := hk
  have hemem : e ∈ elemIds d0 := List.mem_of_elem_eq_true hmem
  have hKmax : ∀ x : Nat, x = e → x ≤ maxId d0 := by
    intro x hx
    cases hx
    exact maxId_bound d0 e hemem
  have hKp2 : ∀ x : Nat, x = e → x ∉ qvParents d0 := by
    intro x hx
    cases hx
    intro h2
    have h3 : (qvParents d0).contains e = true := List.elem_eq_true_of_mem h2
    rw [Bool.not_eq_eq_eq_not, Bool.not_true] at hnp
    rw [hnp] at h3
    exact Bool.noConfusion h3
  have hnsub : ∀ j2 ∈ qualVectorIds d0, ∀ m, getNodeById j2 d0 = some m →
      e ∉ elemIds m := by
    intro j2 hj2 m hm h2
    have h3 := List.all_eq_true.mp hsub j2 hj2
    simp only [inSubtreeOf, hm, Bool.not_eq_eq_eq_not, Bool.not_true] at h3
    have h4 : (elemIds m).contains e = true := List.elem_eq_true_of_mem h2
    rw [h3] at h4
    exact Bool.noConfusion h4
  have hKq : ∀ x : Nat, x = e → x ∈ descImages d0 →
      ∀ v, viewAt e d0 = some v → viewHrefQualifies v = false := by
    intro x hx hxim v hv
    cases hx
    rcases descImages_spec d0 e hxim with ⟨m, hmall, heid, htag⟩
    have hget : getNodeById e d0 = some m := by
      have h2 := mem_allNodes_getNodeById d0 hnd0 m hmall
      rw [heid] at h2
      exact h2
    rw [viewAt, hget] at hv
    simp only [Option.map_some', Option.some.injEq] at hv
    rw [← hv, ← hrefQualifies_eq_view]
    simp only [hget] at hq
    rw [htag] at hq
    simp only [beq_self_eq_true, Bool.true_and, Bool.not_eq_eq_eq_not,
      Bool.not_true] at hq
    exact hq
  have inv0 : EmbedInv env d0 (fun x => x = e) (fun _ => viewAt e d0)
      (descImages d0 ++ []) (d0, maxId d0 + 1) := by
    refine ⟨?_, ?_, ?_, ?_, ?_, ?_⟩
    · exact hnd0
    · intro x hx
      exact Nat.lt_succ_of_le (maxId_bound d0 x hx)
    · exact Nat.lt_succ_self _
    · intro x hx
      cases hx
      rfl
    · intro x hx j2 hj2 m hm
      cases hx
      exact hnsub j2 hj2 m hm
    · intro j2 _
      left
      rfl
  have invC := embedInv_fold env d0 (fun x => x = e) (fun _ => viewAt e d0) hnd0
    hKmax hKp2 (descImages d0) [] (d0, maxId d0 + 1)
    (by
      intro x hx hxl v hv
      cases hx
      exact hKq e rfl hxl v hv)
    (by rw [List.append_nil]; exact (descImages_sublist d0).nodup hnd0)
    (by
      rw [List.append_nil]
      intro x hx
      exact hx)
    inv0
  exact invC.keep e rfl

/-- Document for the C8 counterexample and witness: a `<g>` holding one
vector-qualifying image reference which itself holds an innocent
descendant element, next to an unrelated sibling. -/
def docC8 : Elem :=
  Elem.node 0 "\x7bhttp://www.w3.org/2000/svg\x7dsvg" [] none
    (ElemList.cons
      (Elem.node 1 svgGTag [] none
        (ElemList.cons
          (Elem.node 2 svgImageTag [(hrefAttr, "./assets/icon.svg")] none
            (ElemList.cons
              (Elem.node 3 "\x7bhttp://www.w3.org/2000/svg\x7ddesc" [("k", "v")]
                (some "hello") ElemList.nil)
              ElemList.nil))
          ElemList.nil))
      (ElemList.cons
        (Elem.node 4 "\x7bhttp://www.w3.org/2000/svg\x7drect" [("fill", "red")] none
          ElemList.nil)
        ElemList.nil))

/-- Environment for the C8 counterexample and witness: the vector asset
parses to a one-element tree. -/
def envC8 : Env :=
  ⟨fun _ => none,
   fun p => if p = "./assets/icon.svg"
     then ParseOutcome.ok (RawElem.node "svg" [] none RawElemList.nil)
     else ParseOutcome.notFound⟩

/-- C8 counterexample: element 3 is no qualifying Image Reference and no
parent of one — it is a plain `<desc>` inside the vector reference — yet
it does not appear in the output: inlining removes the whole reference
subtree, descendants included. -/
theorem c8_frame_counterexample :
    (∃ m, getNodeById 3 docC8 = some m ∧ m.tag ≠ svgImageTag)
    ∧ 3 ∉ qvParents docC8
    ∧ viewAt 3 docC8
      = some ⟨"\x7bhttp://www.w3.org/2000/svg\x7ddesc", [("k", "v")], some "hello", []⟩
    ∧ viewAt 3 (runEmbed envC8 docC8) = none :=
  ⟨⟨Elem.node 3 "\x7bhttp://www.w3.org/2000/svg\x7ddesc" [("k", "v")] (some "hello")
      ElemList.nil, by decide, by decide⟩, by decide, by decide, by decide⟩

/-- Witness for the amended C8 at a concrete input: the unrelated
sibling element 4 keeps its view across the run. -/
theorem c8_amended_frame_witness :
    viewAt 4 (runEmbed envC8 docC8) = viewAt 4 docC8 :=
  c8_amended_frame envC8 docC8 4 (by unfold IdsNodup; decide) (by decide)

end SvgEmbed
